import Mathlib

/-!
Verification of the miniauthor document-synchronization core.

This file gives a shallow embedding, in Lean 4, of the pure core of the
miniauthor repository: the line differ and three-way merger (src/lib/merge.ts),
the conflict-hunk builder and resolution composer (modelled from the spec,
since the implementation file is not in this snapshot), the file-catalog
reconciler and the sync orchestrator (the useDropboxSync hook), and the
Dropbox token lifecycle (src/lib/dropbox).  Texts are JS strings, modelled
as Lean `String`; JS numbers holding millisecond timestamps are modelled
as `Int`; nullable values as `Option`; thrown exceptions as `Except` with
the error message as the payload.
-/

namespace Miniauthor

/-! ## Character and string helpers

JS string primitives used by the source (`split`, `join`, `trimEnd`, `trim`,
`replace(/\r\n/g, ...)`, `replace(/\s+/g, ...)`) are modelled on `List Char`.
The JS whitespace class is modelled by `isJsSpace`, covering the whitespace
and line-terminator characters of the ECMAScript definition.
-/

def isJsSpace (c : Char) : Bool :=
  c = ' ' || c = '\t' || c = '\n' || c = '\x0b' || c = '\x0c' || c = '\r' ||
  c = ' ' || c = ' ' ||
  (0x2000 ≤ c.toNat && c.toNat ≤ 0x200A) ||
  c = ' ' || c = ' ' || c = ' ' || c = ' ' ||
  c = '　' || c = '﻿'

/-- JS `String.prototype.trimEnd` on a character list. -/
def trimEndChars (l : List Char) : List Char :=
  (l.reverse.dropWhile isJsSpace).reverse

/-- JS `String.prototype.trim` on a character list. -/
def trimChars (l : List Char) : List Char :=
  trimEndChars (l.dropWhile isJsSpace)

/-- JS `text.replace(/\r\n/g, "\n")`: left-to-right replacement of every
CRLF pair by a single LF. -/
def replaceCRLF : List Char → List Char
  | [] => []
  | '\r' :: '\n' :: rest => '\n' :: replaceCRLF rest
  | c :: rest => c :: replaceCRLF rest

/-- JS `text.split("\n")` on a character list: always returns at least one
(possibly empty) piece. -/
def splitOnNewline : List Char → List (List Char)
  | [] => [[]]
  | c :: rest =>
    if c = '\n' then [] :: splitOnNewline rest
    else
      match splitOnNewline rest with
      | [] => [[c]]
      | line :: lines => (c :: line) :: lines

/-- `lines.join("\n")` on character lists. -/
def joinWithNewline : List (List Char) → List Char
  | [] => []
  | [l] => l
  | l :: rest => l ++ '\n' :: joinWithNewline rest

/-! ## src/lib/merge.ts -/

/-- `splitLines` from merge.ts: empty text gives no lines; otherwise CRLF is
normalized to LF and the text is split on LF. -/
def splitLines (text : String) : List String :=
  if text = "" then []
  else (splitOnNewline (replaceCRLF text.toList)).map String.mk

/-- `joinLines` from merge.ts: join with LF and strip trailing whitespace. -/
def joinLines (lines : List String) : String :=
  String.mk (trimEndChars (joinWithNewline (lines.map String.toList)))

inductive DiffType where
  | equal
  | insert
  | delete
deriving DecidableEq

structure DiffOp where
  type : DiffType
  items : List String
deriving DecidableEq

/-- One entry of the `Change[]` view used by the merger: a replacement of the
base lines `[start, end)` by `insert`.  The source field `end` is a reserved
word in Lean and is named `stop` here. -/
structure Change where
  start : Nat
  stop : Nat
  insert : List String
deriving DecidableEq

/-- The `lcs` dynamic-programming table of `diffTokens`, built row by row.
`lcsRowAux srcLine tgt prevRest left` computes the entries `1..cols` of the
next row: at target element `t` it reads the diagonal entry (head of
`prevRest`), the entry above (next element of `prevRest`) and the entry to
the left (`left`), exactly as the double loop in the source fills
`lcs[i][j]`. -/
def lcsRowAux (srcLine : String) : List String → List Nat → Nat → List Nat
  | [], _, _ => []
  | t :: ts, prevRest, left =>
    let v := if srcLine = t then prevRest.headD 0 + 1
             else max ((prevRest.drop 1).headD 0) left
    v :: lcsRowAux srcLine ts (prevRest.drop 1) v

/-- All rows `0..rows` of the LCS table (row 0 is all zeros). -/
def lcsRows (tgt : List String) : List String → List Nat → List (List Nat)
  | [], prev => [prev]
  | s :: ss, prev => prev :: lcsRows tgt ss (0 :: lcsRowAux s tgt prev 0)

def lcsTable (src tgt : List String) : List (List Nat) :=
  lcsRows tgt src (List.replicate (tgt.length + 1) 0)

def tableGet (tbl : List (List Nat)) (i j : Nat) : Nat :=
  (tbl.getD i []).getD j 0

/-- The backtracking loop of `diffTokens`, producing the reversed op list
(one line per op, later compacted).  The loop strictly decreases `i + j`,
so it is driven by a fuel initialized to `i + j`. -/
def backtrackDiff (src tgt : List String) (tbl : List (List Nat)) :
    Nat → Nat → Nat → List DiffOp
  | 0, _, _ => []
  | fuel + 1, i, j =>
    if i = 0 ∧ j = 0 then []
    else if 0 < i ∧ 0 < j ∧ src.getD (i - 1) "" = tgt.getD (j - 1) "" then
      ⟨.equal, [src.getD (i - 1) ""]⟩ :: backtrackDiff src tgt tbl fuel (i - 1) (j - 1)
    else if 0 < j ∧ (i = 0 ∨ tableGet tbl i (j - 1) ≥ tableGet tbl (i - 1) j) then
      ⟨.insert, [tgt.getD (j - 1) ""]⟩ :: backtrackDiff src tgt tbl fuel i (j - 1)
    else
      ⟨.delete, [src.getD (i - 1) ""]⟩ :: backtrackDiff src tgt tbl fuel (i - 1) j

/-- Compaction of adjacent same-type ops into single runs. -/
def compact : List DiffOp → List DiffOp
  | [] => []
  | op :: rest =>
    match compact rest with
    | [] => [op]
    | op2 :: rest2 =>
      if op.type = op2.type then ⟨op.type, op.items ++ op2.items⟩ :: rest2
      else op :: op2 :: rest2

/-- `diffTokens` from merge.ts: LCS dynamic program, backtracking preferring
`insert` over `delete` on ties, then compaction. -/
def diffTokens (source target : List String) : List DiffOp :=
  compact ((backtrackDiff source target (lcsTable source target)
      (source.length + target.length) source.length target.length).reverse)

/-- `changesFromDiff` from merge.ts, with the source cursor threaded as an
argument: equal runs advance the cursor; an insert is a zero-width change; a
delete immediately followed by an insert collapses into one replace. -/
def changesFromDiff : List DiffOp → Nat → List Change
  | [], _ => []
  | ⟨.equal, items⟩ :: rest, cursor => changesFromDiff rest (cursor + items.length)
  | ⟨.insert, items⟩ :: rest, cursor =>
    ⟨cursor, cursor, items⟩ :: changesFromDiff rest cursor
  | ⟨.delete, items⟩ :: next :: rest2, cursor =>
    if next.type = .insert then
      ⟨cursor, cursor + items.length, next.items⟩ ::
        changesFromDiff rest2 (cursor + items.length)
    else
      ⟨cursor, cursor + items.length, []⟩ ::
        changesFromDiff (next :: rest2) (cursor + items.length)
  | [⟨.delete, items⟩], cursor => [⟨cursor, cursor + items.length, []⟩]

def overlaps (a b : Change) : Bool :=
  a.start < b.stop && b.start < a.stop

def insertsInsideChangedRange (insertChange editChange : Change) : Bool :=
  if insertChange.start ≠ insertChange.stop then false
  else if editChange.start = editChange.stop then false
  else editChange.start < insertChange.start && insertChange.start < editChange.stop

def equivalentChange (a b : Change) : Bool :=
  a.start = b.start && a.stop = b.stop && a.insert = b.insert

/-- JS `base.slice(a, b)` for `0 ≤ a, b`. -/
def sliceList (l : List String) (a b : Nat) : List String :=
  (l.drop a).take (b - a)

/-- `appendChange` from merge.ts: copy the untouched base lines up to the
change, then the replacement.  The source function also returns the new
cursor, always `change.stop`, which call sites below pass explicitly. -/
def appendChange (base output : List String) (cursor : Nat) (change : Change) :
    List String :=
  output ++ sliceList base cursor change.start ++ change.insert

inductive MergeStatus where
  | clean
  | conflict
deriving DecidableEq

structure MergeResult where
  status : MergeStatus
  merged : String
  reason : Option String := none
deriving DecidableEq

def overlapMsg : String := "Overlapping edits detected."

def sameRegionMsg : String := "Changes modify the same region."

/-- Outcome of the merge-walk loop of `threeWayMergeText`: either an early
conflict return, or the accumulated merged lines (with the remaining base
suffix appended). -/
inductive WalkResult where
  | wconflict (reason : String)
  | wclean (lines : List String)
deriving DecidableEq

/-- The while loop of `threeWayMergeText` walking both change lists.  Each
iteration consumes at least one change, so the loop is driven by a fuel
initialized to the total number of changes. -/
def mergeWalk (base : List String) :
    Nat → List Change → List Change → List String → Nat → WalkResult
  | _, [], [], acc, cursor => .wclean (acc ++ base.drop cursor)
  | 0, _, _, acc, cursor => .wclean (acc ++ base.drop cursor)
  | fuel + 1, lc :: lrest, [], acc, cursor =>
    mergeWalk base fuel lrest [] (appendChange base acc cursor lc) lc.stop
  | fuel + 1, [], rc :: rrest, acc, cursor =>
    mergeWalk base fuel [] rrest (appendChange base acc cursor rc) rc.stop
  | fuel + 1, lc :: lrest, rc :: rrest, acc, cursor =>
    if lc.start < rc.start then
      if overlaps lc rc || insertsInsideChangedRange lc rc ||
          insertsInsideChangedRange rc lc then
        .wconflict overlapMsg
      else
        mergeWalk base fuel lrest (rc :: rrest) (appendChange base acc cursor lc) lc.stop
    else if rc.start < lc.start then
      if overlaps rc lc || insertsInsideChangedRange rc lc ||
          insertsInsideChangedRange lc rc then
        .wconflict overlapMsg
      else
        mergeWalk base fuel (lc :: lrest) rrest (appendChange base acc cursor rc) rc.stop
    else if equivalentChange lc rc then
      mergeWalk base fuel lrest rrest (appendChange base acc cursor lc) lc.stop
    else if lc.start = lc.stop ∧ rc.start = rc.stop ∧ lc.start = rc.start then
      mergeWalk base fuel lrest rrest
        (acc ++ sliceList base cursor lc.start ++ lc.insert ++ rc.insert) lc.stop
    else .wconflict sameRegionMsg

/-- The two return sites at the end of `threeWayMergeText`'s general path:
an early conflict returns the unmerged local text with the reason, a
completed walk joins the merged lines. -/
def mergeWrap (localText : String) (w : WalkResult) : MergeResult :=
  match w with
  | .wconflict reason => ⟨.conflict, localText, some reason⟩
  | .wclean lines => ⟨.clean, joinLines lines, none⟩

/-- The general (non-fast-path) branch of `threeWayMergeText`. -/
def generalMerge (baseText localText remoteText : String) : MergeResult :=
  let base := splitLines baseText
  let localLines := splitLines localText
  let remoteLines := splitLines remoteText
  let localChanges := changesFromDiff (diffTokens base localLines) 0
  let remoteChanges := changesFromDiff (diffTokens base remoteLines) 0
  mergeWrap localText
    (mergeWalk base (localChanges.length + remoteChanges.length)
      localChanges remoteChanges [] 0)

/-- `threeWayMergeText` from merge.ts. -/
def threeWayMergeText (baseText localText remoteText : String) : MergeResult :=
  if localText = remoteText then ⟨.clean, localText, none⟩
  else if baseText = localText then ⟨.clean, remoteText, none⟩
  else if baseText = remoteText then ⟨.clean, localText, none⟩
  else generalMerge baseText localText remoteText

/-! ## Conflict hunk builder and resolution composer

`buildDiffHunks` and `composeResolvedFromHunks` are imported from
`@/lib/merge` by ConflictModal.tsx, but their implementation is not part of
this source snapshot; they are modelled from the spec (§4.3). -/

inductive HunkType where
  | equal
  | change
deriving DecidableEq

/-- Modelled from the spec: the display hunk
`{ id, type: equal|change, localLines[], localStart, incomingLines[], incomingStart }`.
Hunk ids are modelled as positional indices. -/
structure DiffHunk where
  id : Nat
  type : HunkType
  localLines : List String
  localStart : Option Nat
  incomingLines : List String
  incomingStart : Option Nat
deriving DecidableEq

/-- Modelled from the spec: the per-hunk resolution choice
`incoming | local | both_incoming_first | both_local_first`
(`local` is a reserved word in Lean, hence `localSide`). -/
inductive DiffChoice where
  | incoming
  | localSide
  | bothIncomingFirst
  | bothLocalFirst
deriving DecidableEq

/-- Modelled from the spec: raw newline split used by the hunk builder, so
that hunks carry the two texts verbatim (joining the pieces with LF is the
exact inverse). -/
def splitRawLines (text : String) : List String :=
  (splitOnNewline text.toList).map String.mk

def joinRawLines (lines : List String) : String :=
  String.mk (joinWithNewline (lines.map String.toList))

/-- Modelled from the spec: one diff op becomes one hunk; equal runs are
verbatim on both sides, a delete run carries remote (incoming) lines, an
insert run carries local lines. -/
def opHunk (op : DiffOp) : DiffHunk :=
  match op.type with
  | .equal => ⟨0, .equal, op.items, none, op.items, none⟩
  | .delete => ⟨0, .change, [], none, op.items, none⟩
  | .insert => ⟨0, .change, op.items, none, [], none⟩

/-- Modelled from the spec: consecutive insert/delete runs are grouped into
a single `change` hunk carrying both sides' lines. -/
def mergeChangeHunks : List DiffHunk → List DiffHunk
  | [] => []
  | h :: rest =>
    match mergeChangeHunks rest with
    | [] => [h]
    | h2 :: rest2 =>
      if h.type = .change ∧ h2.type = .change then
        ⟨h.id, .change, h.localLines ++ h2.localLines, h.localStart,
          h.incomingLines ++ h2.incomingLines, h.incomingStart⟩ :: rest2
      else h :: h2 :: rest2

/-- Modelled from the spec: assign sequential ids and 1-based starting line
numbers on each side. -/
def assignPositions : List DiffHunk → Nat → Nat → Nat → List DiffHunk
  | [], _, _, _ => []
  | h :: rest, nid, localLine, incomingLine =>
    { h with
      id := nid,
      localStart := some localLine,
      incomingStart := some incomingLine } ::
      assignPositions rest (nid + 1) (localLine + h.localLines.length)
        (incomingLine + h.incomingLines.length)

/-- Modelled from the spec: `buildDiffHunks(remote, local)` line-diffs the
two texts (remote as the diff source, local as the diff target, exactly as
ConflictModal calls it) and groups the ops into equal and change hunks. -/
def buildDiffHunks (remoteText localText : String) : List DiffHunk :=
  assignPositions
    (mergeChangeHunks
      ((diffTokens (splitRawLines remoteText) (splitRawLines localText)).map opHunk))
    0 1 1

/-- Modelled from the spec: the lines a change hunk resolves to under a
choice. -/
def resolveLinesForChoice (h : DiffHunk) (c : DiffChoice) : List String :=
  match c with
  | .incoming => h.incomingLines
  | .localSide => h.localLines
  | .bothIncomingFirst => h.incomingLines ++ h.localLines
  | .bothLocalFirst => h.localLines ++ h.incomingLines

/-- Modelled from the spec: the concatenated line list of
`composeResolvedFromHunks` — equal hunks verbatim, change hunks per their
choice, default choice `local` when unspecified. -/
def composeLines (hunks : List DiffHunk)
    (choices : Nat → Option DiffChoice) : List String :=
  hunks.foldr
    (fun h acc =>
      (if h.type = .equal then h.localLines
       else resolveLinesForChoice h ((choices h.id).getD .localSide)) ++ acc)
    []

/-- Modelled from the spec: `composeResolvedFromHunks(hunks, choiceMap)`. -/
def composeResolvedFromHunks (hunks : List DiffHunk)
    (choices : Nat → Option DiffChoice) : String :=
  joinRawLines (composeLines hunks choices)

/-- The lines of `ops` belonging to the diff target (equal and insert runs),
in order: the target text, by construction of the LCS backtracking. -/
def targetItemsOf (ops : List DiffOp) : List String :=
  (ops.map (fun op => if op.type = DiffType.delete then [] else op.items)).flatten

/-- The lines of `ops` belonging to the diff source (equal and delete runs). -/
def sourceItemsOf (ops : List DiffOp) : List String :=
  (ops.map (fun op => if op.type = DiffType.insert then [] else op.items)).flatten

/-- The lines a hunk contributes when every change hunk resolves to the
incoming (remote) side. -/
def hunkIncomingView (h : DiffHunk) : List String :=
  if h.type = HunkType.equal then h.localLines else h.incomingLines

/-! ## File catalog reconciler (useDropboxSync hook) -/

def DEFAULT_FILE_NAME : String := "Untitled"

def DEFAULT_FIRST_FILE_NAME : String := "Manuscript"

structure ManuscriptFileMeta where
  id : String
  name : String
  createdAt : Int
  updatedAt : Int
  renamedAt : Int
deriving DecidableEq

/-- `LooseFileMeta`: a partially-populated catalog entry as read from
storage or the remote manifest; missing timestamps are `none`
(JS `undefined`, for which `Number.isFinite` is false). -/
structure LooseFileMeta where
  id : String
  name : String
  createdAt : Option Int := none
  updatedAt : Option Int := none
  renamedAt : Option Int := none
deriving DecidableEq

/-- JS `value.replace(/\s+/g, " ")`: each maximal whitespace run becomes a
single space.  The flag records whether the previous character was
whitespace. -/
def collapseWsAux : List Char → Bool → List Char
  | [], _ => []
  | c :: rest, prevWs =>
    if isJsSpace c then
      if prevWs then collapseWsAux rest true
      else ' ' :: collapseWsAux rest true
    else c :: collapseWsAux rest false

def normalizeWhitespace (value : String) : String :=
  String.mk (trimChars (collapseWsAux value.toList false))

/-- `sanitizeFileName`: collapse whitespace, strip control characters
U+0000–U+001F, truncate to 80 characters. -/
def sanitizeFileName (value : String) : String :=
  String.mk (((normalizeWhitespace value).toList.filter
    (fun c => !(c.toNat < 32))).take 80)

/-- `sanitizeFileName(name) || DEFAULT_FILE_NAME` (JS falsy empty string). -/
def sanitizedOrDefault (name : String) : String :=
  if sanitizeFileName name = "" then DEFAULT_FILE_NAME else sanitizeFileName name

/-- Model of `localeCompare(..., { sensitivity: "base" })`: case-folded
codepoint comparison (the actual locale collation is environment-dependent;
no claim depends on the ordering itself). -/
def caseFoldCmp : List Char → List Char → Int
  | [], [] => 0
  | [], _ :: _ => -1
  | _ :: _, [] => 1
  | a :: as, b :: bs =>
    if a.toLower = b.toLower then caseFoldCmp as bs
    else if a.toLower < b.toLower then -1 else 1

/-- The comparator of `sortFiles`: by `createdAt`, then by name. -/
def cmpFiles (a b : ManuscriptFileMeta) : Int :=
  if a.createdAt ≠ b.createdAt then a.createdAt - b.createdAt
  else caseFoldCmp a.name.toList b.name.toList

/-- Stable insertion (the element is placed after every element the
comparator does not order strictly after it), modelling JS's stable
`Array.prototype.sort`. -/
def insertByCmp (cmp : α → α → Int) (x : α) : List α → List α
  | [] => [x]
  | y :: ys => if cmp y x ≤ 0 then y :: insertByCmp cmp x ys else x :: y :: ys

def sortByCmp (cmp : α → α → Int) (l : List α) : List α :=
  l.foldl (fun acc x => insertByCmp cmp x acc) []

def sortFiles (files : List ManuscriptFileMeta) : List ManuscriptFileMeta :=
  sortByCmp cmpFiles files

/-- Index assignment of `ensureUniqueNames`' order map: `Map.set` keeps the
last index for a duplicated id. -/
def lastIndexOf (l : List String) (x : String) : Option Nat :=
  match l.reverse.findIdx? (fun y => y == x) with
  | none => none
  | some k => some (l.length - 1 - k)

/-- The comparator of `ensureUniqueNames`: ids with a preferred index sort
by index and come before ids without one. -/
def cmpPreferred (ord : String → Option Nat) (a b : ManuscriptFileMeta) : Int :=
  match ord a.id, ord b.id with
  | some i, some j => (i : Int) - (j : Int)
  | some _, none => -1
  | none, some _ => 1
  | none, none => 0

/-- `ensureUniqueNames`: stable-sort by preferred order, then sanitize each
name (falling back to the default name). -/
def ensureUniqueNames (files : List ManuscriptFileMeta)
    (preferredOrder : List String) : List ManuscriptFileMeta :=
  (sortByCmp (cmpPreferred (lastIndexOf preferredOrder)) files).map
    (fun f => { f with name := sanitizedOrDefault f.name })

/-- `normalizeFileMeta`: backfill missing/non-positive timestamps from `now`
and clamp `updatedAt`/`renamedAt`. -/
def normalizeFileMeta (input : LooseFileMeta) (now : Int) : ManuscriptFileMeta :=
  let createdAt := match input.createdAt with
    | some v => if 0 < v then v else now
    | none => now
  let updatedAtCandidate := match input.updatedAt with
    | some v => if 0 < v then v else createdAt
    | none => createdAt
  let renamedAtCandidate := match input.renamedAt with
    | some v => if 0 < v then v else updatedAtCandidate
    | none => updatedAtCandidate
  { id := input.id,
    name := sanitizedOrDefault input.name,
    createdAt := createdAt,
    updatedAt := max updatedAtCandidate renamedAtCandidate,
    renamedAt := max renamedAtCandidate createdAt }

/-- Replace the entry with the given id in place (keys are unique in the
deduplication map, whose insertion order this list mirrors). -/
def upsertById (acc : List ManuscriptFileMeta) (m : ManuscriptFileMeta) :
    List ManuscriptFileMeta :=
  acc.map fun x => if x.id = m.id then m else x

/-- The deduplication loop of `normalizeFiles`: skip entries with an empty
(trimmed) id; otherwise keep, per id, the entry winning by
`renamedAt`/`updatedAt`, at the first-seen position. -/
def dedupeFilesAux (now : Int) :
    List LooseFileMeta → List ManuscriptFileMeta → List ManuscriptFileMeta
  | [], acc => acc
  | f :: rest, acc =>
    if (trimChars f.id.toList).length = 0 then dedupeFilesAux now rest acc
    else
      match acc.find? (fun x => x.id == (normalizeFileMeta f now).id) with
      | none => dedupeFilesAux now rest (acc ++ [normalizeFileMeta f now])
      | some existing =>
        if (normalizeFileMeta f now).renamedAt > existing.renamedAt ∨
            ((normalizeFileMeta f now).renamedAt = existing.renamedAt ∧
              (normalizeFileMeta f now).updatedAt ≥ existing.updatedAt) then
          dedupeFilesAux now rest (upsertById acc (normalizeFileMeta f now))
        else dedupeFilesAux now rest acc

def normalizeFiles (files : List LooseFileMeta) (now : Int) :
    List ManuscriptFileMeta :=
  ensureUniqueNames (sortFiles (dedupeFilesAux now files [])) []

/-- The in-place union step of `mergeFileCatalogs` for an id present in both
catalogs: keep the local record, but take the remote name on
`remoteFile.renamedAt >= current.renamedAt`, the minimum `createdAt` and the
maxima of `updatedAt`/`renamedAt`. -/
def combineMeta (current remoteFile : ManuscriptFileMeta) : ManuscriptFileMeta :=
  { current with
    name := if remoteFile.renamedAt ≥ current.renamedAt then remoteFile.name
            else current.name,
    createdAt := min current.createdAt remoteFile.createdAt,
    updatedAt := max current.updatedAt remoteFile.updatedAt,
    renamedAt := max current.renamedAt remoteFile.renamedAt }

/-- The `Map`-union loop of `mergeFileCatalogs`: local entries seed the map,
remote entries are appended or combined in place. -/
def mergeLoop : List ManuscriptFileMeta → List ManuscriptFileMeta →
    List ManuscriptFileMeta
  | acc, [] => acc
  | acc, r :: rest =>
    match acc.find? (fun x => x.id == r.id) with
    | none => mergeLoop (acc ++ [r]) rest
    | some current => mergeLoop (upsertById acc (combineMeta current r)) rest

/-- `mergeFileCatalogs` (the ambient `Date.now()` is passed as `now`). -/
def mergeFileCatalogs (now : Int) (localFiles remoteFiles : List LooseFileMeta) :
    List ManuscriptFileMeta :=
  let localN := normalizeFiles localFiles now
  let remoteN := normalizeFiles remoteFiles now
  let merged := mergeLoop localN remoteN
  let preferredOrder := localN.map (·.id) ++ remoteN.map (·.id)
  ensureUniqueNames (sortFiles merged) preferredOrder

/-! ## Dropbox token lifecycle (src/lib/dropbox) -/

structure DropboxTokenState where
  accessToken : String
  refreshToken : String
  expiresAt : Int
  accountId : Option String := none
deriving DecidableEq

/-- The token-refresh HTTP exchange, abstracted to its observable outcome:
`ok = false` models a non-2xx response (which the source turns into a thrown
error), and the other fields are the parsed JSON payload
`{ access_token, expires_in, account_id? }`. -/
structure RefreshResponse where
  ok : Bool
  access_token : String
  expires_in : Int
  account_id : Option String := none
deriving DecidableEq

/-- `refreshAccessToken`: on success, spread the old token and replace
`accessToken`, `expiresAt = Date.now() + expires_in * 1000` and
`accountId = payload.account_id ?? token.accountId`. -/
def refreshAccessToken (now : Int) (token : DropboxTokenState)
    (response : RefreshResponse) : Except String DropboxTokenState :=
  if !response.ok then .error "Dropbox token refresh failed."
  else .ok { token with
    accessToken := response.access_token,
    expiresAt := now + response.expires_in * 1000,
    accountId := match response.account_id with
      | some a => some a
      | none => token.accountId }

/-- `ensureValidDropboxToken`: return the token unchanged while
`Date.now() < expiresAt - 60_000`, otherwise refresh. -/
def ensureValidDropboxToken (now : Int) (token : DropboxTokenState)
    (response : RefreshResponse) : Except String DropboxTokenState :=
  if now < token.expiresAt - 60 * 1000 then .ok token
  else refreshAccessToken now token response

/-! ## Sync orchestrator (`syncWithDropbox` in useDropboxSync)

The hook's React state cells and refs become fields of `SyncState`; the
persistent IndexedDB document store and workspace manifest are explicit
fields written only through this function; remote calls are abstracted as
`SyncEnv` functions returning `Except` (a thrown error is `.error message`);
the block/markdown helpers from `@/lib/markdown` are external collaborators
supplied through `SyncDeps`.  The outcome records the returned boolean and
every upload call issued. -/

structure DropboxFile where
  content : String
  rev : String
deriving DecidableEq

structure DropboxUploadResult where
  rev : String
deriving DecidableEq

/-- `ConflictState` from app-types (source fields `local`/`remote` are named
`localText`/`remoteText`; `local` is a reserved word in Lean). -/
structure ConflictState where
  fileId : String
  fileName : String
  base : String
  localText : String
  remoteText : String
  resolved : String
  reason : Option String := none
deriving DecidableEq

structure StoredDocument (Block : Type) where
  id : String
  blocks : List Block
  updatedAt : Int
  lastSyncedAt : Option Int
  baseMarkdown : String
  remoteRev : Option String

structure StoredWorkspace where
  files : List ManuscriptFileMeta
  activeFileId : Option String
deriving DecidableEq

structure SyncDeps (Block : Type) where
  serializeBlocksToMarkdown : List Block → String
  parseMarkdownToBlocks : String → List Block
  hasMeaningfulBlocksContent : List Block → Bool
  normalizeBlocksForEditor : List Block → List Block

structure SyncEnv where
  hasAppKey : Bool
  isOnline : Bool
  now : Int
  ensureToken : DropboxTokenState → Except String DropboxTokenState
  download : String → Except String (Option DropboxFile)
  upload : String → String → Except String DropboxUploadResult

structure SyncState (Block : Type) where
  files : List ManuscriptFileMeta
  activeFileId : Option String
  blocks : List Block
  updatedAt : Int
  lastSyncedAt : Option Int
  baseMarkdown : String
  remoteRev : Option String
  dropboxToken : Option DropboxTokenState
  conflict : Option ConflictState
  syncNotice : String
  isSyncing : Bool
  isPulling : Bool
  cloudAheadByFileId : String → Option Int
  documentStore : String → Option (StoredDocument Block)
  workspaceStore : Option StoredWorkspace

structure SyncOutcome (Block : Type) where
  returned : Bool
  state : SyncState Block
  uploads : List (String × String)

def dropboxPathForFile (fileId : String) : String :=
  "/mini-author-" ++ fileId ++ ".md"

def isPrefixOfChars : List Char → List Char → Bool
  | [], _ => true
  | _ :: _, [] => false
  | a :: as, b :: bs => a = b && isPrefixOfChars as bs

/-- `needle` occurs as a contiguous substring of `hay`. -/
def isInfixOfChars (needle : List Char) : List Char → Bool
  | [] => isPrefixOfChars needle []
  | c :: rest => isPrefixOfChars needle (c :: rest) || isInfixOfChars needle rest

/-- `isDropboxAuthError`: case-insensitive substring test of
`/invalid_grant|invalid_access_token|expired_access_token|401/i`. -/
def isDropboxAuthError (errorMessage : String) : Bool :=
  let h := errorMessage.toList.map Char.toLower
  isInfixOfChars "invalid_grant".toList h ||
  isInfixOfChars "invalid_access_token".toList h ||
  isInfixOfChars "expired_access_token".toList h ||
  isInfixOfChars "401".toList h

/-- The catch block of `syncWithDropbox` (and the `finally` resetting the
in-flight flag): an auth error clears the stored token and asks the user to
reconnect, any other error surfaces its message. -/
def syncCatch {Block : Type} (st : SyncState Block)
    (uploads : List (String × String)) (detail : String) : SyncOutcome Block :=
  if isDropboxAuthError detail then
    ⟨false, { st with
      dropboxToken := none,
      syncNotice := "Dropbox session expired. Please reconnect Dropbox.",
      isSyncing := false }, uploads⟩
  else ⟨false, { st with syncNotice := detail, isSyncing := false }, uploads⟩

/-- After `ensureValidDropboxToken`: publish the refreshed token when the
access token or expiry changed. -/
def applyTokenUpdate {Block : Type} (st : SyncState Block)
    (token validToken : DropboxTokenState) : SyncState Block :=
  if validToken.accessToken ≠ token.accessToken ∨
      validToken.expiresAt ≠ token.expiresAt then
    { st with dropboxToken := some validToken }
  else st

/-- The tail of the clean-merge path: build the merged document, write it to
the persistent store, publish the new editor state, clear conflict and
cloud-ahead marks. -/
def finishClean {Block : Type} (deps : SyncDeps Block) (env : SyncEnv)
    (st2 : SyncState Block) (currentActiveId fileName mergedMarkdown : String)
    (latestRev : Option String) (uploads : List (String × String)) :
    SyncOutcome Block :=
  let normalizedMergedBlocks :=
    deps.normalizeBlocksForEditor (deps.parseMarkdownToBlocks mergedMarkdown)
  let mergedDocument : StoredDocument Block :=
    ⟨currentActiveId, normalizedMergedBlocks, env.now, some env.now,
      mergedMarkdown, latestRev⟩
  ⟨true,
    { st2 with
      blocks := normalizedMergedBlocks,
      baseMarkdown := mergedMarkdown,
      remoteRev := latestRev,
      lastSyncedAt := some env.now,
      updatedAt := env.now,
      conflict := none,
      cloudAheadByFileId := fun fid =>
        if fid = currentActiveId then none else st2.cloudAheadByFileId fid,
      syncNotice := "Dropbox sync complete for \"" ++ fileName ++ "\".",
      isSyncing := false,
      documentStore := fun fid =>
        if fid = currentActiveId then some mergedDocument
        else st2.documentStore fid },
    uploads⟩

/-- The source's `mergeLocalMarkdown`: `localHasContent ? localMarkdown : ""`
with `localMarkdown = serializeBlocksToMarkdown(blocks)` and
`localHasContent = hasMeaningfulBlocksContent(blocks)`. -/
def mergeLocalOf {Block : Type} (deps : SyncDeps Block) (st : SyncState Block) :
    String :=
  if deps.hasMeaningfulBlocksContent st.blocks then
    deps.serializeBlocksToMarkdown st.blocks
  else ""

/-- The source's `remoteMarkdown`: `remoteFile?.content ?? ""`. -/
def remoteMarkdownOf (remoteFile : Option DropboxFile) : String :=
  (remoteFile.map DropboxFile.content).getD ""

/-- The source's `mergeRemoteMarkdown`:
`remoteHasContent ? remoteMarkdown : ""` with
`remoteHasContent = hasMeaningfulBlocksContent(parseMarkdownToBlocks(remoteMarkdown))`. -/
def mergeRemoteOf {Block : Type} (deps : SyncDeps Block)
    (remoteFile : Option DropboxFile) : String :=
  if deps.hasMeaningfulBlocksContent
      (deps.parseMarkdownToBlocks (remoteMarkdownOf remoteFile)) then
    remoteMarkdownOf remoteFile
  else ""

/-- The source's `isFirstSync`:
`lastSyncedAt == null && remoteRev == null && baseMarkdown.trim().length === 0`. -/
abbrev isFirstSyncOf {Block : Type} (st : SyncState Block) : Prop :=
  st.lastSyncedAt = none ∧ st.remoteRev = none ∧
    (trimChars st.baseMarkdown.toList).length = 0

/-- The full guard of the first-sync protection branch. -/
abbrev firstSyncConflictCond {Block : Type} (deps : SyncDeps Block)
    (st : SyncState Block) (remoteFile : Option DropboxFile) : Prop :=
  isFirstSyncOf st ∧ remoteFile.isSome = true ∧
    deps.hasMeaningfulBlocksContent st.blocks = true ∧
    deps.hasMeaningfulBlocksContent
      (deps.parseMarkdownToBlocks (remoteMarkdownOf remoteFile)) = true ∧
    mergeLocalOf deps st ≠ mergeRemoteOf deps remoteFile

/-- Everything `syncWithDropbox` does after the remote download succeeded:
first-sync protection, three-way merge, conditional upload, persistence.
`st2` is the state after the in-flight flag was set and a refreshed token
possibly published; the fields this code reads (`blocks`, `lastSyncedAt`,
`remoteRev`, `baseMarkdown`) are untouched by those two updates. -/
def syncAfterDownload {Block : Type} (deps : SyncDeps Block) (env : SyncEnv)
    (st2 : SyncState Block) (currentActiveId : String)
    (currentFile : ManuscriptFileMeta) (remoteFile : Option DropboxFile) :
    SyncOutcome Block :=
  if firstSyncConflictCond deps st2 remoteFile then
    ⟨false,
      { st2 with
        conflict := some ⟨currentActiveId, currentFile.name, "",
          mergeLocalOf deps st2, mergeRemoteOf deps remoteFile,
          mergeLocalOf deps st2,
          some "This manuscript has local and Dropbox drafts. Choose one or merge manually."⟩,
        syncNotice := "Conflict in \"" ++ currentFile.name ++ "\".",
        isSyncing := false }, []⟩
  else
    let mergeResult := threeWayMergeText st2.baseMarkdown
      (mergeLocalOf deps st2) (mergeRemoteOf deps remoteFile)
    if mergeResult.status = .conflict then
      ⟨false,
        { st2 with
          conflict := some ⟨currentActiveId, currentFile.name,
            st2.baseMarkdown, mergeLocalOf deps st2, mergeRemoteOf deps remoteFile,
            mergeLocalOf deps st2, mergeResult.reason⟩,
          syncNotice := "Conflict in \"" ++ currentFile.name ++ "\".",
          isSyncing := false }, []⟩
    else
      if remoteFile.isNone = true ∨ mergeResult.merged ≠ mergeRemoteOf deps remoteFile then
        match env.upload (dropboxPathForFile currentActiveId) mergeResult.merged with
        | .error detail =>
          syncCatch st2
            [(dropboxPathForFile currentActiveId, mergeResult.merged)] detail
        | .ok uploaded =>
          finishClean deps env st2 currentActiveId currentFile.name
            mergeResult.merged (some uploaded.rev)
            [(dropboxPathForFile currentActiveId, mergeResult.merged)]
      else
        finishClean deps env st2 currentActiveId currentFile.name
          mergeResult.merged
          (match remoteFile with
            | some f => some f.rev
            | none => st2.remoteRev) []

/-- `syncWithDropbox`. -/
def syncWithDropbox {Block : Type} (deps : SyncDeps Block) (env : SyncEnv)
    (st : SyncState Block) : SyncOutcome Block :=
  if st.isSyncing || st.isPulling then ⟨false, st, []⟩
  else if !env.hasAppKey then
    ⟨false, { st with
      syncNotice := "Add VITE_DROPBOX_APP_KEY before connecting Dropbox." }, []⟩
  else
    match st.dropboxToken with
    | none => ⟨false, { st with syncNotice := "Connect Dropbox first." }, []⟩
    | some token =>
      if !env.isOnline then
        ⟨false, { st with
          syncNotice := "Offline. Changes stay in IndexedDB until reconnect." }, []⟩
      else
        match st.activeFileId with
        | none => ⟨false, { st with syncNotice := "Create a manuscript first." }, []⟩
        | some currentActiveId =>
          match st.files.find? (fun f => f.id == currentActiveId) with
          | none =>
            ⟨false, { st with syncNotice := "Current manuscript was not found." }, []⟩
          | some currentFile =>
            let st1 := { st with isSyncing := true }
            match env.ensureToken token with
            | .error detail => syncCatch st1 [] detail
            | .ok validToken =>
              let st2 := applyTokenUpdate st1 token validToken
              match env.download (dropboxPathForFile currentActiveId) with
              | .error detail => syncCatch st2 [] detail
              | .ok remoteFile =>
                syncAfterDownload deps env st2 currentActiveId currentFile remoteFile

/-- A catalog entry as `normalizeFileMeta` would leave it: non-empty trimmed
id, sanitization-stable non-empty name, positive creation time, and
`createdAt ≤ renamedAt ≤ updatedAt`. -/
def WellFormedMeta (m : ManuscriptFileMeta) : Prop :=
  (trimChars m.id.toList).length ≠ 0 ∧
  sanitizeFileName m.name = m.name ∧ m.name ≠ "" ∧
  0 < m.createdAt ∧ m.createdAt ≤ m.renamedAt ∧ m.renamedAt ≤ m.updatedAt

instance (m : ManuscriptFileMeta) : Decidable (WellFormedMeta m) := by
  unfold WellFormedMeta
  infer_instance

/-- View a fully-populated catalog entry as input to `mergeFileCatalogs`. -/
def toLooseMeta (m : ManuscriptFileMeta) : LooseFileMeta :=
  ⟨m.id, m.name, some m.createdAt, some m.updatedAt, some m.renamedAt⟩

/-! ## Concrete fixtures used by witness theorems -/

def wToken : DropboxTokenState := ⟨"at", "rt", 1000, none⟩

def wFile : ManuscriptFileMeta := ⟨"f1", "Draft", 1, 1, 1⟩

/-- Block type `Unit`: deps whose serializer always yields the given local
draft and which treat every block list as meaningful. -/
def wDeps (localDraft : String) : SyncDeps Unit :=
  ⟨fun _ => localDraft, fun _ => [], fun _ => true, fun b => b⟩

/-- Environment whose download yields the given result and whose other
remote calls succeed. -/
def wEnv (dl : Except String (Option DropboxFile)) : SyncEnv :=
  ⟨true, true, 100, fun t => .ok t, fun _ => dl, fun _ _ => .ok ⟨"r3"⟩⟩

def wState : SyncState Unit :=
  { files := [wFile], activeFileId := some "f1", blocks := [()], updatedAt := 0,
    lastSyncedAt := some 5, baseMarkdown := "A\nB\nC", remoteRev := some "r1",
    dropboxToken := some wToken, conflict := none, syncNotice := "",
    isSyncing := false, isPulling := false,
    cloudAheadByFileId := fun _ => none, documentStore := fun _ => none,
    workspaceStore := none }

def wStateFirst : SyncState Unit :=
  { wState with lastSyncedAt := none, remoteRev := none, baseMarkdown := "" }

def wLooseA : LooseFileMeta :=
  { id := "a", name := "Alpha", createdAt := some 10, updatedAt := some 20,
    renamedAt := some 15 }

def wLooseB : LooseFileMeta :=
  { id := "b", name := "Beta", createdAt := some 5, updatedAt := some 6,
    renamedAt := some 6 }

def wMetaA : ManuscriptFileMeta := ⟨"a", "Alpha", 10, 20, 15⟩

def wMetaB : ManuscriptFileMeta := ⟨"a", "Beta", 8, 30, 30⟩

def wHunk : DiffHunk := ⟨0, .equal, ["A"], some 1, ["A"], some 1⟩

/-! ## Helper lemmas -/

theorem mergeWalk_wconflict_reason (base : List String) :
    ∀ (fuel : Nat) (lcs rcs : List Change) (acc : List String) (cursor : Nat)
      (reason : String),
      mergeWalk base fuel lcs rcs acc cursor = .wconflict reason →
      reason = overlapMsg ∨ reason = sameRegionMsg := by
  intro fuel
  induction fuel with
  | zero =>
    intro lcs rcs acc cursor reason h
    cases lcs <;> cases rcs <;> simp [mergeWalk] at h
  | succ n ih =>
    intro lcs rcs acc cursor reason h
    cases lcs with
    | nil =>
      cases rcs with
      | nil => simp [mergeWalk] at h
      | cons rc rrest =>
        rw [mergeWalk] at h
        exact ih _ _ _ _ _ h
    | cons lc lrest =>
      cases rcs with
      | nil =>
        rw [mergeWalk] at h
        exact ih _ _ _ _ _ h
      | cons rc rrest =>
        rw [mergeWalk] at h
        split at h
        · split at h
          · cases h
            exact Or.inl rfl
          · exact ih _ _ _ _ _ h
        · split at h
          · split at h
            · cases h
              exact Or.inl rfl
            · exact ih _ _ _ _ _ h
          · split at h
            · exact ih _ _ _ _ _ h
            · split at h
              · exact ih _ _ _ _ _ h
              · cases h
                exact Or.inr rfl

theorem mergeWrap_conflict (l : String) (w : WalkResult)
    (h : (mergeWrap l w).status = .conflict) :
    (mergeWrap l w).merged = l ∧
      ∃ rsn, w = .wconflict rsn ∧ (mergeWrap l w).reason = some rsn := by
  cases w with
  | wconflict rsn => exact ⟨rfl, rsn, rfl, rfl⟩
  | wclean lines => simp [mergeWrap] at h

theorem mergeWrap_clean (l : String) (w : WalkResult)
    (h : (mergeWrap l w).status = .clean) :
    ∃ ls, w = .wclean ls ∧ (mergeWrap l w).merged = joinLines ls := by
  cases w with
  | wconflict rsn => simp [mergeWrap] at h
  | wclean lines => exact ⟨lines, rfl, rfl⟩

theorem generalMerge_conflict (b l r : String)
    (h : (generalMerge b l r).status = .conflict) :
    (generalMerge b l r).merged = l ∧
      ((generalMerge b l r).reason = some overlapMsg ∨
       (generalMerge b l r).reason = some sameRegionMsg) := by
  unfold generalMerge at h ⊢
  obtain ⟨hm, rsn, hw, hr⟩ := mergeWrap_conflict _ _ h
  refine ⟨hm, ?_⟩
  rcases mergeWalk_wconflict_reason _ _ _ _ _ _ _ hw with h1 | h1
  · exact Or.inl (h1 ▸ hr)
  · exact Or.inr (h1 ▸ hr)

theorem threeWayMergeText_eq_general (b l r : String)
    (h1 : l ≠ r) (h2 : b ≠ l) (h3 : b ≠ r) :
    threeWayMergeText b l r = generalMerge b l r := by
  simp [threeWayMergeText, h1, h2, h3]

/-! ## Claim theorems for the three-way merger -/

/-- C3: for all texts `L` and `R`, `threeWayMergeText(L, L, R)` is
`{status: clean, merged: R}` and `threeWayMergeText(R, L, R)` is
`{status: clean, merged: L}`; the fast paths apply to every pair of texts
(CRLF and trailing newlines included) and return the chosen input
verbatim. -/
theorem merge_fast_paths (L R : String) :
    threeWayMergeText L L R = ⟨.clean, R, none⟩ ∧
    threeWayMergeText R L R = ⟨.clean, L, none⟩ := by
  constructor
  · by_cases h : L = R
    · subst h
      simp [threeWayMergeText]
    · simp [threeWayMergeText, h]
  · by_cases h : L = R
    · subst h
      simp [threeWayMergeText]
    · have h' : R ≠ L := fun hh => h hh.symm
      simp [threeWayMergeText, h, h']

/-- C4: every non-clean result of `threeWayMergeText` is a conflict whose
`merged` field is the unmodified local input and whose reason is either the
overlapping-edits or the same-region message; the walk reports the
overlapping-edits reason exactly when one side's change overlaps or a
zero-width insert falls strictly inside the other's non-zero-width change,
and the same-region message when both current changes start at the same
position but are neither identical nor both zero-width inserts; in
particular `base="A\nB\nC"`, `local="A\nX\nC"`, `remote="A\nY\nC"` yields a
conflict with the same-region reason. -/
theorem merge_conflict_characterization :
    (∀ b l r, (threeWayMergeText b l r).status = .conflict →
      (threeWayMergeText b l r).merged = l ∧
        ((threeWayMergeText b l r).reason = some overlapMsg ∨
         (threeWayMergeText b l r).reason = some sameRegionMsg)) ∧
    (∀ (base : List String) (fuel : Nat) (lc rc : Change)
        (lcs rcs : List Change) (acc : List String) (cursor : Nat),
      lc.start < rc.start →
      (overlaps lc rc || insertsInsideChangedRange lc rc ||
        insertsInsideChangedRange rc lc) = true →
      mergeWalk base (fuel + 1) (lc :: lcs) (rc :: rcs) acc cursor =
        .wconflict overlapMsg) ∧
    (∀ (base : List String) (fuel : Nat) (lc rc : Change)
        (lcs rcs : List Change) (acc : List String) (cursor : Nat),
      rc.start < lc.start →
      (overlaps rc lc || insertsInsideChangedRange rc lc ||
        insertsInsideChangedRange lc rc) = true →
      mergeWalk base (fuel + 1) (lc :: lcs) (rc :: rcs) acc cursor =
        .wconflict overlapMsg) ∧
    (∀ (base : List String) (fuel : Nat) (lc rc : Change)
        (lcs rcs : List Change) (acc : List String) (cursor : Nat),
      ¬ lc.start < rc.start → ¬ rc.start < lc.start →
      ¬ equivalentChange lc rc = true →
      ¬ (lc.start = lc.stop ∧ rc.start = rc.stop ∧ lc.start = rc.start) →
      mergeWalk base (fuel + 1) (lc :: lcs) (rc :: rcs) acc cursor =
        .wconflict sameRegionMsg) ∧
    threeWayMergeText "A\nB\nC" "A\nX\nC" "A\nY\nC" =
      ⟨.conflict, "A\nX\nC", some sameRegionMsg⟩ := by
  refine ⟨?_, ?_, ?_, ?_, by decide⟩
  · intro b l r h
    by_cases h1 : l = r
    · simp [threeWayMergeText, h1] at h
    by_cases h2 : b = l
    · simp [threeWayMergeText, h1, h2] at h
    by_cases h3 : b = r
    · have h1' : r ≠ l := fun hh => h1 hh.symm
      simp [threeWayMergeText, h1, h1', h2, h3] at h
    · rw [threeWayMergeText_eq_general b l r h1 h2 h3] at h ⊢
      exact generalMerge_conflict b l r h
  · intro base fuel lc rc lcs rcs acc cursor hlt hcond
    rw [mergeWalk]
    simp [hlt, hcond]
  · intro base fuel lc rc lcs rcs acc cursor hlt hcond
    have hnl : ¬ lc.start < rc.start := by omega
    rw [mergeWalk]
    simp [hnl, hlt, hcond]
  · intro base fuel lc rc lcs rcs acc cursor hnl hnr hne hni
    rw [mergeWalk]
    simp [hnl, hnr, hne, hni]

/-- Witness for C4 at the concrete conflicting inputs. -/
theorem merge_conflict_characterization_witness :
    (threeWayMergeText "A\nB\nC" "A\nX\nC" "A\nY\nC").merged = "A\nX\nC" ∧
    ((threeWayMergeText "A\nB\nC" "A\nX\nC" "A\nY\nC").reason = some overlapMsg ∨
     (threeWayMergeText "A\nB\nC" "A\nX\nC" "A\nY\nC").reason = some sameRegionMsg) :=
  merge_conflict_characterization.1 "A\nB\nC" "A\nX\nC" "A\nY\nC" (by decide)

/-- C5: disjoint edits on different base lines merge cleanly through the
general change-walk path:
`threeWayMergeText("A\nB\nC", "A2\nB\nC", "A\nB\nC2")` is
`{status: clean, merged: "A2\nB\nC2"}`. -/
theorem merge_disjoint_edits_clean :
    threeWayMergeText "A\nB\nC" "A2\nB\nC" "A\nB\nC2" =
      ⟨.clean, "A2\nB\nC2", none⟩ := by
  decide

theorem dropWhile_dropWhile (p : Char → Bool) (l : List Char) :
    (l.dropWhile p).dropWhile p = l.dropWhile p := by
  induction l with
  | nil => rfl
  | cons a t ih =>
    by_cases h : p a
    · simp [List.dropWhile_cons, h, ih]
    · simp [List.dropWhile_cons, h]

theorem trimEndChars_idem (l : List Char) :
    trimEndChars (trimEndChars l) = trimEndChars l := by
  unfold trimEndChars
  rw [List.reverse_reverse, dropWhile_dropWhile]

theorem head?_dropWhile_false (p : Char → Bool) (l : List Char) (c : Char)
    (h : (l.dropWhile p).head? = some c) : p c = false := by
  induction l with
  | nil => simp [List.dropWhile] at h
  | cons a t ih =>
    by_cases hp : p a
    · rw [List.dropWhile_cons, if_pos hp] at h
      exact ih h
    · rw [List.dropWhile_cons, if_neg hp] at h
      simp only [List.head?_cons, Option.some.injEq] at h
      subst h
      simpa using hp

theorem trimEndChars_getLast? (l : List Char) (c : Char)
    (h : (trimEndChars l).getLast? = some c) : isJsSpace c = false := by
  unfold trimEndChars at h
  rw [List.getLast?_reverse] at h
  exact head?_dropWhile_false _ _ _ h

theorem joinLines_toList (ls : List String) :
    (joinLines ls).toList =
      trimEndChars (joinWithNewline (ls.map String.toList)) := rfl

/-- C10: whenever `threeWayMergeText` takes the general (non-fast-path)
route and merges cleanly, the merged output is the `joinLines` image of the
walked lines, hence a fixpoint of trailing-whitespace trimming: it never
ends in any whitespace character (in particular never in a newline), even
when all three inputs do; the concrete CRLF example shows the inputs being
normalized (`\r\n` split as one line break, trailing newline trimmed),
unlike the fast paths which return an input verbatim. -/
theorem merge_general_clean_normalized :
    (∀ b l r, l ≠ r → b ≠ l → b ≠ r →
      (threeWayMergeText b l r).status = .clean →
      ∃ ls, (threeWayMergeText b l r).merged = joinLines ls) ∧
    (∀ b l r, l ≠ r → b ≠ l → b ≠ r →
      (threeWayMergeText b l r).status = .clean →
      trimEndChars (threeWayMergeText b l r).merged.toList =
        (threeWayMergeText b l r).merged.toList) ∧
    (∀ b l r, l ≠ r → b ≠ l → b ≠ r →
      (threeWayMergeText b l r).status = .clean →
      ∀ c, (threeWayMergeText b l r).merged.toList.getLast? = some c →
        isJsSpace c = false) ∧
    threeWayMergeText "A\r\nB\n" "A2\r\nB\n" "A\r\nB2\n" =
      ⟨.clean, "A2\nB2", none⟩ := by
  have key : ∀ b l r, l ≠ r → b ≠ l → b ≠ r →
      (threeWayMergeText b l r).status = .clean →
      ∃ ls, (threeWayMergeText b l r).merged = joinLines ls := by
    intro b l r h1 h2 h3 h
    rw [threeWayMergeText_eq_general b l r h1 h2 h3] at h ⊢
    unfold generalMerge at h ⊢
    obtain ⟨ls, _, hm⟩ := mergeWrap_clean _ _ h
    exact ⟨ls, hm⟩
  refine ⟨key, ?_, ?_, by decide⟩
  · intro b l r h1 h2 h3 h
    obtain ⟨ls, hm⟩ := key b l r h1 h2 h3 h
    rw [hm, joinLines_toList, trimEndChars_idem]
  · intro b l r h1 h2 h3 h c hc
    obtain ⟨ls, hm⟩ := key b l r h1 h2 h3 h
    rw [hm, joinLines_toList] at hc
    exact trimEndChars_getLast? _ _ hc

/-- Witness for C10 at the concrete CRLF inputs. -/
theorem merge_general_clean_normalized_witness :
    trimEndChars (threeWayMergeText "A\r\nB\n" "A2\r\nB\n" "A\r\nB2\n").merged.toList =
      (threeWayMergeText "A\r\nB\n" "A2\r\nB\n" "A\r\nB2\n").merged.toList :=
  merge_general_clean_normalized.2.1 "A\r\nB\n" "A2\r\nB\n" "A\r\nB2\n"
    (by decide) (by decide) (by decide) (by decide)

/-! ## Token lifecycle -/

/-- C8: `ensureValidDropboxToken` returns the token unchanged when the
current time is more than 60 seconds before `expiresAt`; otherwise it
refreshes, yielding (on a successful exchange) a token with the response's
access token and `expiresAt = now + expires_in * 1000`, preserving the
existing `refreshToken`, and the existing `accountId` unless the response
supplies one. -/
theorem ensureValidDropboxToken_spec :
    (∀ (now : Int) (token : DropboxTokenState) (response : RefreshResponse),
      now < token.expiresAt - 60 * 1000 →
      ensureValidDropboxToken now token response = .ok token) ∧
    (∀ (now : Int) (token : DropboxTokenState) (response : RefreshResponse),
      ¬ now < token.expiresAt - 60 * 1000 → response.ok = true →
      ensureValidDropboxToken now token response = .ok
        { accessToken := response.access_token,
          refreshToken := token.refreshToken,
          expiresAt := now + response.expires_in * 1000,
          accountId := match response.account_id with
            | some a => some a
            | none => token.accountId }) := by
  constructor
  · intro now token response h
    unfold ensureValidDropboxToken
    rw [if_pos h]
  · intro now token response h hok
    unfold ensureValidDropboxToken refreshAccessToken
    rw [if_neg h, hok]
    simp

/-- Witness for C8: a fresh token is returned unchanged; an expiring one is
refreshed with the refresh token and account id preserved. -/
theorem ensureValidDropboxToken_spec_witness :
    ensureValidDropboxToken 0 ⟨"at", "rt", 1000000, some "acc"⟩
        ⟨true, "new", 14400, none⟩ = .ok ⟨"at", "rt", 1000000, some "acc"⟩ ∧
    ensureValidDropboxToken 999999 ⟨"at", "rt", 1000000, some "acc"⟩
        ⟨true, "new", 14400, none⟩ =
      .ok ⟨"new", "rt", 999999 + 14400 * 1000, some "acc"⟩ := by
  constructor
  · exact ensureValidDropboxToken_spec.1 0 _ _ (by decide)
  · exact ensureValidDropboxToken_spec.2 999999 _ _ (by decide) rfl

/-! ## Sync orchestrator lemmas -/

@[simp] theorem applyTokenUpdate_blocks {Block : Type} (st : SyncState Block)
    (t v : DropboxTokenState) : (applyTokenUpdate st t v).blocks = st.blocks := by
  unfold applyTokenUpdate
  split <;> rfl

@[simp] theorem applyTokenUpdate_lastSyncedAt {Block : Type} (st : SyncState Block)
    (t v : DropboxTokenState) :
    (applyTokenUpdate st t v).lastSyncedAt = st.lastSyncedAt := by
  unfold applyTokenUpdate
  split <;> rfl

@[simp] theorem applyTokenUpdate_remoteRev {Block : Type} (st : SyncState Block)
    (t v : DropboxTokenState) : (applyTokenUpdate st t v).remoteRev = st.remoteRev := by
  unfold applyTokenUpdate
  split <;> rfl

@[simp] theorem applyTokenUpdate_baseMarkdown {Block : Type} (st : SyncState Block)
    (t v : DropboxTokenState) :
    (applyTokenUpdate st t v).baseMarkdown = st.baseMarkdown := by
  unfold applyTokenUpdate
  split <;> rfl

@[simp] theorem applyTokenUpdate_documentStore {Block : Type} (st : SyncState Block)
    (t v : DropboxTokenState) :
    (applyTokenUpdate st t v).documentStore = st.documentStore := by
  unfold applyTokenUpdate
  split <;> rfl

@[simp] theorem applyTokenUpdate_workspaceStore {Block : Type} (st : SyncState Block)
    (t v : DropboxTokenState) :
    (applyTokenUpdate st t v).workspaceStore = st.workspaceStore := by
  unfold applyTokenUpdate
  split <;> rfl

theorem syncWithDropbox_eq_afterDownload {Block : Type} (deps : SyncDeps Block)
    (env : SyncEnv) (st : SyncState Block) (token validToken : DropboxTokenState)
    (currentActiveId : String) (currentFile : ManuscriptFileMeta)
    (remoteFile : Option DropboxFile)
    (hs : st.isSyncing = false) (hp : st.isPulling = false)
    (hk : env.hasAppKey = true) (ht : st.dropboxToken = some token)
    (ho : env.isOnline = true) (ha : st.activeFileId = some currentActiveId)
    (hf : st.files.find? (fun f => f.id == currentActiveId) = some currentFile)
    (hr : env.ensureToken token = .ok validToken)
    (hd : env.download (dropboxPathForFile currentActiveId) = .ok remoteFile) :
    syncWithDropbox deps env st =
      syncAfterDownload deps env
        (applyTokenUpdate { st with isSyncing := true } token validToken)
        currentActiveId currentFile remoteFile := by
  unfold syncWithDropbox
  simp only [hs, hp, hk, ht, ho, ha, hf, hr, hd]
  simp

theorem syncAfterDownload_conflict {Block : Type} (deps : SyncDeps Block)
    (env : SyncEnv) (st2 : SyncState Block) (currentActiveId : String)
    (currentFile : ManuscriptFileMeta) (remoteFile : Option DropboxFile)
    (hconf : firstSyncConflictCond deps st2 remoteFile ∨
      (threeWayMergeText st2.baseMarkdown (mergeLocalOf deps st2)
        (mergeRemoteOf deps remoteFile)).status = .conflict) :
    ∃ c, syncAfterDownload deps env st2 currentActiveId currentFile remoteFile =
      ⟨false,
        { st2 with
          conflict := some c,
          syncNotice := "Conflict in \"" ++ currentFile.name ++ "\".",
          isSyncing := false }, []⟩ := by
  by_cases hfs : firstSyncConflictCond deps st2 remoteFile
  · refine ⟨⟨currentActiveId, currentFile.name, "", mergeLocalOf deps st2,
      mergeRemoteOf deps remoteFile, mergeLocalOf deps st2,
      some "This manuscript has local and Dropbox drafts. Choose one or merge manually."⟩, ?_⟩
    unfold syncAfterDownload
    rw [if_pos hfs]
  · have hmc := hconf.resolve_left hfs
    refine ⟨⟨currentActiveId, currentFile.name, st2.baseMarkdown,
      mergeLocalOf deps st2, mergeRemoteOf deps remoteFile, mergeLocalOf deps st2,
      (threeWayMergeText st2.baseMarkdown (mergeLocalOf deps st2)
        (mergeRemoteOf deps remoteFile)).reason⟩, ?_⟩
    unfold syncAfterDownload
    rw [if_neg hfs]
    simp [hmc]

/-- C1: whenever the three-way merge (or the first-sync protection check)
reports a conflict, `syncWithDropbox` performs no upload and no write to the
persistent document store or workspace manifest: it records a
`ConflictState`, returns `false`, and leaves the document state (blocks,
baseMarkdown, remoteRev, lastSyncedAt) exactly as before. -/
theorem sync_conflict_no_mutation {Block : Type} (deps : SyncDeps Block)
    (env : SyncEnv) (st : SyncState Block) (token validToken : DropboxTokenState)
    (currentActiveId : String) (currentFile : ManuscriptFileMeta)
    (remoteFile : Option DropboxFile)
    (hs : st.isSyncing = false) (hp : st.isPulling = false)
    (hk : env.hasAppKey = true) (ht : st.dropboxToken = some token)
    (ho : env.isOnline = true) (ha : st.activeFileId = some currentActiveId)
    (hf : st.files.find? (fun f => f.id == currentActiveId) = some currentFile)
    (hr : env.ensureToken token = .ok validToken)
    (hd : env.download (dropboxPathForFile currentActiveId) = .ok remoteFile)
    (hconf : firstSyncConflictCond deps st remoteFile ∨
      (threeWayMergeText st.baseMarkdown (mergeLocalOf deps st)
        (mergeRemoteOf deps remoteFile)).status = .conflict) :
    (syncWithDropbox deps env st).returned = false ∧
    (syncWithDropbox deps env st).uploads = [] ∧
    (syncWithDropbox deps env st).state.documentStore = st.documentStore ∧
    (syncWithDropbox deps env st).state.workspaceStore = st.workspaceStore ∧
    (∃ c, (syncWithDropbox deps env st).state.conflict = some c) ∧
    (syncWithDropbox deps env st).state.blocks = st.blocks ∧
    (syncWithDropbox deps env st).state.baseMarkdown = st.baseMarkdown ∧
    (syncWithDropbox deps env st).state.remoteRev = st.remoteRev ∧
    (syncWithDropbox deps env st).state.lastSyncedAt = st.lastSyncedAt := by
  rw [syncWithDropbox_eq_afterDownload deps env st token validToken
    currentActiveId currentFile remoteFile hs hp hk ht ho ha hf hr hd]
  have hconf2 : firstSyncConflictCond deps
      (applyTokenUpdate { st with isSyncing := true } token validToken) remoteFile ∨
      (threeWayMergeText
        (applyTokenUpdate { st with isSyncing := true } token validToken).baseMarkdown
        (mergeLocalOf deps (applyTokenUpdate { st with isSyncing := true } token validToken))
        (mergeRemoteOf deps remoteFile)).status = .conflict := by
    simpa [firstSyncConflictCond, isFirstSyncOf, mergeLocalOf, mergeRemoteOf] using hconf
  obtain ⟨c, hc⟩ := syncAfterDownload_conflict deps env _ currentActiveId
    currentFile remoteFile hconf2
  rw [hc]
  exact ⟨rfl, rfl, by simp, by simp, ⟨c, rfl⟩, by simp, by simp, by simp, by simp⟩

/-- Witness for C1: a same-region merge conflict on concrete inputs leaves
the store untouched, uploads nothing and records a conflict. -/
theorem sync_conflict_no_mutation_witness :
    (syncWithDropbox (wDeps "A\nX\nC") (wEnv (.ok (some ⟨"A\nY\nC", "r2"⟩))) wState).returned = false ∧
    (syncWithDropbox (wDeps "A\nX\nC") (wEnv (.ok (some ⟨"A\nY\nC", "r2"⟩))) wState).uploads = [] ∧
    (syncWithDropbox (wDeps "A\nX\nC") (wEnv (.ok (some ⟨"A\nY\nC", "r2"⟩))) wState).state.documentStore = wState.documentStore ∧
    (∃ c, (syncWithDropbox (wDeps "A\nX\nC") (wEnv (.ok (some ⟨"A\nY\nC", "r2"⟩))) wState).state.conflict = some c) := by
  have H := sync_conflict_no_mutation (wDeps "A\nX\nC")
    (wEnv (.ok (some ⟨"A\nY\nC", "r2"⟩))) wState wToken wToken "f1" wFile
    (some ⟨"A\nY\nC", "r2"⟩) rfl rfl rfl rfl rfl rfl rfl rfl rfl
    (Or.inr (by decide))
  exact ⟨H.1, H.2.1, H.2.2.1, H.2.2.2.2.1⟩

/-- C2: first-sync protection.  When the local record has no prior base
(`lastSyncedAt == null`, `remoteRev == null`, empty trimmed `baseMarkdown`),
the download returns an existing file, both sides have meaningful content
and the two texts differ, `syncWithDropbox` returns `false` with a
`ConflictState` whose `base` is the empty string, and the local store is
unchanged. -/
theorem sync_first_sync_protection {Block : Type} (deps : SyncDeps Block)
    (env : SyncEnv) (st : SyncState Block) (token validToken : DropboxTokenState)
    (currentActiveId : String) (currentFile : ManuscriptFileMeta)
    (rfile : DropboxFile)
    (hs : st.isSyncing = false) (hp : st.isPulling = false)
    (hk : env.hasAppKey = true) (ht : st.dropboxToken = some token)
    (ho : env.isOnline = true) (ha : st.activeFileId = some currentActiveId)
    (hf : st.files.find? (fun f => f.id == currentActiveId) = some currentFile)
    (hr : env.ensureToken token = .ok validToken)
    (hd : env.download (dropboxPathForFile currentActiveId) = .ok (some rfile))
    (hls : st.lastSyncedAt = none) (hrr : st.remoteRev = none)
    (hbm : (trimChars st.baseMarkdown.toList).length = 0)
    (hl : deps.hasMeaningfulBlocksContent st.blocks = true)
    (hre : deps.hasMeaningfulBlocksContent
      (deps.parseMarkdownToBlocks rfile.content) = true)
    (hne : deps.serializeBlocksToMarkdown st.blocks ≠ rfile.content) :
    (syncWithDropbox deps env st).returned = false ∧
    (syncWithDropbox deps env st).state.conflict =
      some ⟨currentActiveId, currentFile.name, "",
        deps.serializeBlocksToMarkdown st.blocks, rfile.content,
        deps.serializeBlocksToMarkdown st.blocks,
        some "This manuscript has local and Dropbox drafts. Choose one or merge manually."⟩ ∧
    (syncWithDropbox deps env st).uploads = [] ∧
    (syncWithDropbox deps env st).state.documentStore = st.documentStore ∧
    (syncWithDropbox deps env st).state.workspaceStore = st.workspaceStore ∧
    (syncWithDropbox deps env st).state.blocks = st.blocks ∧
    (syncWithDropbox deps env st).state.baseMarkdown = st.baseMarkdown ∧
    (syncWithDropbox deps env st).state.remoteRev = st.remoteRev ∧
    (syncWithDropbox deps env st).state.lastSyncedAt = st.lastSyncedAt := by
  rw [syncWithDropbox_eq_afterDownload deps env st token validToken
    currentActiveId currentFile (some rfile) hs hp hk ht ho ha hf hr hd]
  have hml : mergeLocalOf deps
      (applyTokenUpdate { st with isSyncing := true } token validToken) =
      deps.serializeBlocksToMarkdown st.blocks := by
    simp [mergeLocalOf, hl]
  have hmr : mergeRemoteOf deps (some rfile) = rfile.content := by
    simp [mergeRemoteOf, remoteMarkdownOf, hre]
  have hfs : firstSyncConflictCond deps
      (applyTokenUpdate { st with isSyncing := true } token validToken)
      (some rfile) := by
    refine ⟨⟨by simp [hls], by simp [hrr], by simpa using hbm⟩, rfl,
      by simp [hl], by simpa [remoteMarkdownOf] using hre, ?_⟩
    rw [hml, hmr]
    exact hne
  unfold syncAfterDownload
  rw [if_pos hfs]
  refine ⟨rfl, ?_, rfl, by simp, by simp, by simp, by simp, by simp, by simp⟩
  rw [hml, hmr]

/-- Witness for C2: no prior base, local `"Hello"`, remote `"World"`: the
sync returns a conflict with empty base and the store is unchanged. -/
theorem sync_first_sync_protection_witness :
    (syncWithDropbox (wDeps "Hello") (wEnv (.ok (some ⟨"World", "r2"⟩))) wStateFirst).returned = false ∧
    (syncWithDropbox (wDeps "Hello") (wEnv (.ok (some ⟨"World", "r2"⟩))) wStateFirst).state.conflict =
      some ⟨"f1", "Draft", "", "Hello", "World", "Hello",
        some "This manuscript has local and Dropbox drafts. Choose one or merge manually."⟩ ∧
    (syncWithDropbox (wDeps "Hello") (wEnv (.ok (some ⟨"World", "r2"⟩))) wStateFirst).state.documentStore = wStateFirst.documentStore := by
  have H := sync_first_sync_protection (wDeps "Hello")
    (wEnv (.ok (some ⟨"World", "r2"⟩))) wStateFirst wToken wToken "f1" wFile
    ⟨"World", "r2"⟩ rfl rfl rfl rfl rfl rfl rfl rfl rfl rfl rfl (by decide)
    rfl rfl (by decide)
  exact ⟨H.1, H.2.1, H.2.2.2.1⟩

/-- C9: a remote call failing with a message matching the auth-error pattern
(`invalid_grant`, `invalid_access_token`, `expired_access_token`, `401`)
makes `syncWithDropbox` clear the stored token, set the reconnect notice,
return `false`, and leave the document content untouched — at each of the
three remote call sites (token refresh, download, upload). -/
theorem sync_auth_error_clears_token :
    (∀ (Block : Type) (deps : SyncDeps Block) (env : SyncEnv)
       (st : SyncState Block) (token : DropboxTokenState)
       (currentActiveId : String) (currentFile : ManuscriptFileMeta)
       (detail : String),
      st.isSyncing = false → st.isPulling = false → env.hasAppKey = true →
      st.dropboxToken = some token → env.isOnline = true →
      st.activeFileId = some currentActiveId →
      st.files.find? (fun f => f.id == currentActiveId) = some currentFile →
      env.ensureToken token = .error detail →
      isDropboxAuthError detail = true →
      (syncWithDropbox deps env st).returned = false ∧
      (syncWithDropbox deps env st).state.dropboxToken = none ∧
      (syncWithDropbox deps env st).state.syncNotice =
        "Dropbox session expired. Please reconnect Dropbox." ∧
      (syncWithDropbox deps env st).state.documentStore = st.documentStore ∧
      (syncWithDropbox deps env st).state.blocks = st.blocks ∧
      (syncWithDropbox deps env st).state.baseMarkdown = st.baseMarkdown ∧
      (syncWithDropbox deps env st).state.remoteRev = st.remoteRev ∧
      (syncWithDropbox deps env st).state.lastSyncedAt = st.lastSyncedAt) ∧
    (∀ (Block : Type) (deps : SyncDeps Block) (env : SyncEnv)
       (st : SyncState Block) (token validToken : DropboxTokenState)
       (currentActiveId : String) (currentFile : ManuscriptFileMeta)
       (detail : String),
      st.isSyncing = false → st.isPulling = false → env.hasAppKey = true →
      st.dropboxToken = some token → env.isOnline = true →
      st.activeFileId = some currentActiveId →
      st.files.find? (fun f => f.id == currentActiveId) = some currentFile →
      env.ensureToken token = .ok validToken →
      env.download (dropboxPathForFile currentActiveId) = .error detail →
      isDropboxAuthError detail = true →
      (syncWithDropbox deps env st).returned = false ∧
      (syncWithDropbox deps env st).state.dropboxToken = none ∧
      (syncWithDropbox deps env st).state.syncNotice =
        "Dropbox session expired. Please reconnect Dropbox." ∧
      (syncWithDropbox deps env st).state.documentStore = st.documentStore ∧
      (syncWithDropbox deps env st).state.blocks = st.blocks ∧
      (syncWithDropbox deps env st).state.baseMarkdown = st.baseMarkdown ∧
      (syncWithDropbox deps env st).state.remoteRev = st.remoteRev ∧
      (syncWithDropbox deps env st).state.lastSyncedAt = st.lastSyncedAt) ∧
    (∀ (Block : Type) (deps : SyncDeps Block) (env : SyncEnv)
       (st : SyncState Block) (token validToken : DropboxTokenState)
       (currentActiveId : String) (currentFile : ManuscriptFileMeta)
       (remoteFile : Option DropboxFile) (detail : String),
      st.isSyncing = false → st.isPulling = false → env.hasAppKey = true →
      st.dropboxToken = some token → env.isOnline = true →
      st.activeFileId = some currentActiveId →
      st.files.find? (fun f => f.id == currentActiveId) = some currentFile →
      env.ensureToken token = .ok validToken →
      env.download (dropboxPathForFile currentActiveId) = .ok remoteFile →
      ¬ firstSyncConflictCond deps st remoteFile →
      (threeWayMergeText st.baseMarkdown (mergeLocalOf deps st)
        (mergeRemoteOf deps remoteFile)).status = .clean →
      (remoteFile.isNone = true ∨
        (threeWayMergeText st.baseMarkdown (mergeLocalOf deps st)
          (mergeRemoteOf deps remoteFile)).merged ≠ mergeRemoteOf deps remoteFile) →
      env.upload (dropboxPathForFile currentActiveId)
        (threeWayMergeText st.baseMarkdown (mergeLocalOf deps st)
          (mergeRemoteOf deps remoteFile)).merged = .error detail →
      isDropboxAuthError detail = true →
      (syncWithDropbox deps env st).returned = false ∧
      (syncWithDropbox deps env st).state.dropboxToken = none ∧
      (syncWithDropbox deps env st).state.syncNotice =
        "Dropbox session expired. Please reconnect Dropbox." ∧
      (syncWithDropbox deps env st).state.documentStore = st.documentStore ∧
      (syncWithDropbox deps env st).state.blocks = st.blocks ∧
      (syncWithDropbox deps env st).state.baseMarkdown = st.baseMarkdown ∧
      (syncWithDropbox deps env st).state.remoteRev = st.remoteRev ∧
      (syncWithDropbox deps env st).state.lastSyncedAt = st.lastSyncedAt) ∧
    isDropboxAuthError "expired_access_token" = true ∧
    isDropboxAuthError "invalid_grant" = true ∧
    isDropboxAuthError "invalid_access_token" = true ∧
    isDropboxAuthError "Dropbox download failed: 401" = true := by
  refine ⟨?_, ?_, ?_, by decide, by decide, by decide, by decide⟩
  · intro Block deps env st token currentActiveId currentFile detail
      hs hp hk ht ho ha hf hr hauth
    unfold syncWithDropbox
    simp only [hs, hp, hk, ht, ho, ha, hf, hr]
    simp [syncCatch, hauth]
  · intro Block deps env st token validToken currentActiveId currentFile detail
      hs hp hk ht ho ha hf hr hd hauth
    unfold syncWithDropbox
    simp only [hs, hp, hk, ht, ho, ha, hf, hr, hd]
    simp [syncCatch, hauth]
  · intro Block deps env st token validToken currentActiveId currentFile
      remoteFile detail hs hp hk ht ho ha hf hr hd hnfs hclean hneed hu hauth
    rw [syncWithDropbox_eq_afterDownload deps env st token validToken
      currentActiveId currentFile remoteFile hs hp hk ht ho ha hf hr hd]
    have hnfs2 : ¬ firstSyncConflictCond deps
        (applyTokenUpdate { st with isSyncing := true } token validToken)
        remoteFile := by
      simpa [firstSyncConflictCond, isFirstSyncOf, mergeLocalOf, mergeRemoteOf]
        using hnfs
    have hml : mergeLocalOf deps
        (applyTokenUpdate { st with isSyncing := true } token validToken) =
        mergeLocalOf deps st := by
      simp [mergeLocalOf]
    have hbm : (applyTokenUpdate { st with isSyncing := true } token
        validToken).baseMarkdown = st.baseMarkdown := by simp
    unfold syncAfterDownload
    rw [if_neg hnfs2]
    simp only [hml, hbm]
    rw [if_neg (by simp [hclean]), if_pos hneed, hu]
    simp [syncCatch, hauth]

/-- Witness for C9: a download throwing `expired_access_token` clears the
stored token, sets the reconnect notice and leaves the store untouched. -/
theorem sync_auth_error_clears_token_witness :
    (syncWithDropbox (wDeps "A\nX\nC")
      (wEnv (.error "Dropbox download failed: expired_access_token")) wState).returned = false ∧
    (syncWithDropbox (wDeps "A\nX\nC")
      (wEnv (.error "Dropbox download failed: expired_access_token")) wState).state.dropboxToken = none ∧
    (syncWithDropbox (wDeps "A\nX\nC")
      (wEnv (.error "Dropbox download failed: expired_access_token")) wState).state.syncNotice =
      "Dropbox session expired. Please reconnect Dropbox." ∧
    (syncWithDropbox (wDeps "A\nX\nC")
      (wEnv (.error "Dropbox download failed: expired_access_token")) wState).state.documentStore = wState.documentStore := by
  have H := sync_auth_error_clears_token.2.1 Unit (wDeps "A\nX\nC")
    (wEnv (.error "Dropbox download failed: expired_access_token")) wState
    wToken wToken "f1" wFile "Dropbox download failed: expired_access_token"
    rfl rfl rfl rfl rfl rfl rfl rfl rfl (by decide)
  exact ⟨H.1, H.2.1, H.2.2.1, H.2.2.2.1⟩

/-! ## Hunk round-trip lemmas (C7) -/

theorem splitOnNewline_ne_nil (cs : List Char) : splitOnNewline cs ≠ [] := by
  cases cs with
  | nil => simp [splitOnNewline]
  | cons c rest =>
    rw [splitOnNewline]
    by_cases h : c = '\n'
    · simp [h]
    · rw [if_neg h]
      cases splitOnNewline rest <;> simp

theorem joinWithNewline_splitOnNewline (cs : List Char) :
    joinWithNewline (splitOnNewline cs) = cs := by
  induction cs with
  | nil => rfl
  | cons c rest ih =>
    rw [splitOnNewline]
    by_cases h : c = '\n'
    · rw [if_pos h]
      cases hs : splitOnNewline rest with
      | nil => exact absurd hs (splitOnNewline_ne_nil rest)
      | cons line lines =>
        rw [hs] at ih
        subst h
        simp [joinWithNewline, ih]
    · rw [if_neg h]
      cases hs : splitOnNewline rest with
      | nil => exact absurd hs (splitOnNewline_ne_nil rest)
      | cons line lines =>
        rw [hs] at ih
        cases lines with
        | nil =>
          simp only [joinWithNewline] at ih ⊢
          rw [ih]
        | cons l2 ls =>
          simp only [joinWithNewline] at ih ⊢
          simp [ih]

theorem joinRawLines_splitRawLines (t : String) :
    joinRawLines (splitRawLines t) = t := by
  unfold joinRawLines splitRawLines
  rw [List.map_map]
  have hcomp : (String.toList ∘ String.mk) = id := funext fun l => rfl
  rw [hcomp, List.map_id, joinWithNewline_splitOnNewline]
  rfl

theorem targetItemsOf_append (a b : List DiffOp) :
    targetItemsOf (a ++ b) = targetItemsOf a ++ targetItemsOf b := by
  simp [targetItemsOf]

theorem sourceItemsOf_append (a b : List DiffOp) :
    sourceItemsOf (a ++ b) = sourceItemsOf a ++ sourceItemsOf b := by
  simp [sourceItemsOf]

theorem take_succ_getD (l : List String) (n : Nat) (h : n < l.length) :
    l.take (n + 1) = l.take n ++ [l.getD n ""] := by
  induction l generalizing n with
  | nil => simp at h
  | cons a t ih =>
    cases n with
    | zero => simp [List.getD]
    | succ m =>
      rw [List.take_succ_cons, List.take_succ_cons, ih m (by simpa using h)]
      simp [List.getD]

theorem backtrackDiff_concats (src tgt : List String) (tbl : List (List Nat)) :
    ∀ (fuel i j : Nat), i ≤ src.length → j ≤ tgt.length → i + j ≤ fuel →
      targetItemsOf (backtrackDiff src tgt tbl fuel i j).reverse = tgt.take j ∧
      sourceItemsOf (backtrackDiff src tgt tbl fuel i j).reverse = src.take i := by
  intro fuel
  induction fuel with
  | zero =>
    intro i j hi hj hf
    have hij : i = 0 ∧ j = 0 := by omega
    obtain ⟨rfl, rfl⟩ := hij
    simp [backtrackDiff, targetItemsOf, sourceItemsOf]
  | succ n ih =>
    intro i j hi hj hf
    rw [backtrackDiff]
    by_cases h0 : i = 0 ∧ j = 0
    · obtain ⟨rfl, rfl⟩ := h0
      simp [targetItemsOf, sourceItemsOf]
    · rw [if_neg h0]
      by_cases heq : 0 < i ∧ 0 < j ∧ src.getD (i - 1) "" = tgt.getD (j - 1) ""
      · rw [if_pos heq]
        obtain ⟨hi0, hj0, hitem⟩ := heq
        obtain ⟨iht, ihs⟩ := ih (i - 1) (j - 1) (by omega) (by omega) (by omega)
        rw [List.reverse_cons, targetItemsOf_append, sourceItemsOf_append, iht, ihs]
        constructor
        · rw [show targetItemsOf [(⟨DiffType.equal, [src.getD (i - 1) ""]⟩ : DiffOp)] =
              [src.getD (i - 1) ""] from by simp [targetItemsOf]]
          rw [hitem]
          have h2 := take_succ_getD tgt (j - 1) (by omega)
          rw [show j - 1 + 1 = j from by omega] at h2
          exact h2.symm
        · rw [show sourceItemsOf [(⟨DiffType.equal, [src.getD (i - 1) ""]⟩ : DiffOp)] =
              [src.getD (i - 1) ""] from by simp [sourceItemsOf]]
          have h2 := take_succ_getD src (i - 1) (by omega)
          rw [show i - 1 + 1 = i from by omega] at h2
          exact h2.symm
      · rw [if_neg heq]
        by_cases hins : 0 < j ∧ (i = 0 ∨ tableGet tbl i (j - 1) ≥ tableGet tbl (i - 1) j)
        · rw [if_pos hins]
          obtain ⟨hj0, _⟩ := hins
          obtain ⟨iht, ihs⟩ := ih i (j - 1) hi (by omega) (by omega)
          rw [List.reverse_cons, targetItemsOf_append, sourceItemsOf_append, iht, ihs]
          constructor
          · rw [show targetItemsOf [(⟨DiffType.insert, [tgt.getD (j - 1) ""]⟩ : DiffOp)] =
                [tgt.getD (j - 1) ""] from by simp [targetItemsOf]]
            have h2 := take_succ_getD tgt (j - 1) (by omega)
            rw [show j - 1 + 1 = j from by omega] at h2
            exact h2.symm
          · rw [show sourceItemsOf [(⟨DiffType.insert, [tgt.getD (j - 1) ""]⟩ : DiffOp)] =
                ([] : List String) from by simp [sourceItemsOf]]
            simp
        · rw [if_neg hins]
          have hi0 : 0 < i := by
            by_contra hh
            have hiz : i = 0 := by omega
            subst hiz
            rcases Nat.eq_zero_or_pos j with hj0 | hj0
            · exact h0 ⟨rfl, hj0⟩
            · exact hins ⟨hj0, Or.inl rfl⟩
          obtain ⟨iht, ihs⟩ := ih (i - 1) j (by omega) hj (by omega)
          rw [List.reverse_cons, targetItemsOf_append, sourceItemsOf_append, iht, ihs]
          constructor
          · rw [show targetItemsOf [(⟨DiffType.delete, [src.getD (i - 1) ""]⟩ : DiffOp)] =
                ([] : List String) from by simp [targetItemsOf]]
            simp
          · rw [show sourceItemsOf [(⟨DiffType.delete, [src.getD (i - 1) ""]⟩ : DiffOp)] =
                [src.getD (i - 1) ""] from by simp [sourceItemsOf]]
            have h2 := take_succ_getD src (i - 1) (by omega)
            rw [show i - 1 + 1 = i from by omega] at h2
            exact h2.symm

theorem compact_flatten_map (g : DiffOp → List String)
    (hg : ∀ t items items2,
      g ⟨t, items ++ items2⟩ = g ⟨t, items⟩ ++ g ⟨t, items2⟩) :
    ∀ ops : List DiffOp,
      ((compact ops).map g).flatten = (ops.map g).flatten := by
  intro ops
  induction ops with
  | nil => rfl
  | cons op rest ih =>
    rw [compact]
    cases hc : compact rest with
    | nil =>
      rw [hc] at ih
      simp only [List.map_nil, List.flatten_nil] at ih
      simp [← ih]
    | cons op2 rest2 =>
      rw [hc] at ih
      dsimp only
      by_cases hty : op.type = op2.type
      · rw [if_pos hty]
        simp only [List.map_cons, List.flatten_cons] at ih ⊢
        have hmerge : g ⟨op.type, op.items ++ op2.items⟩ = g op ++ g op2 := by
          have h1 := hg op.type op.items op2.items
          have e1 : (⟨op.type, op.items⟩ : DiffOp) = op := rfl
          have e2 : (⟨op.type, op2.items⟩ : DiffOp) = op2 := by rw [hty]
          rw [h1, e1, e2]
        rw [hmerge, ← ih, List.append_assoc]
      · rw [if_neg hty]
        simp only [List.map_cons, List.flatten_cons] at ih ⊢
        rw [← ih]

theorem targetItemsOf_compact (ops : List DiffOp) :
    targetItemsOf (compact ops) = targetItemsOf ops := by
  have := compact_flatten_map
    (fun op => if op.type = DiffType.delete then [] else op.items)
    (by
      intro t items items2
      by_cases ht : t = DiffType.delete <;> simp [ht])
    ops
  simpa [targetItemsOf] using this

theorem sourceItemsOf_compact (ops : List DiffOp) :
    sourceItemsOf (compact ops) = sourceItemsOf ops := by
  have := compact_flatten_map
    (fun op => if op.type = DiffType.insert then [] else op.items)
    (by
      intro t items items2
      by_cases ht : t = DiffType.insert <;> simp [ht])
    ops
  simpa [sourceItemsOf] using this

theorem diffTokens_concats (src tgt : List String) :
    targetItemsOf (diffTokens src tgt) = tgt ∧
    sourceItemsOf (diffTokens src tgt) = src := by
  unfold diffTokens
  obtain ⟨ht, hs⟩ := backtrackDiff_concats src tgt (lcsTable src tgt)
    (src.length + tgt.length) src.length tgt.length le_rfl le_rfl le_rfl
  rw [targetItemsOf_compact, sourceItemsOf_compact, ht, hs,
    List.take_length, List.take_length]
  exact ⟨rfl, rfl⟩

theorem mergeChangeHunks_flatten_map (g : DiffHunk → List String)
    (hg : ∀ h h2 : DiffHunk, h.type = .change → h2.type = .change →
      g ⟨h.id, .change, h.localLines ++ h2.localLines, h.localStart,
          h.incomingLines ++ h2.incomingLines, h.incomingStart⟩ = g h ++ g h2) :
    ∀ hs : List DiffHunk,
      ((mergeChangeHunks hs).map g).flatten = (hs.map g).flatten := by
  intro hs
  induction hs with
  | nil => rfl
  | cons h rest ih =>
    rw [mergeChangeHunks]
    cases hc : mergeChangeHunks rest with
    | nil =>
      rw [hc] at ih
      simp only [List.map_nil, List.flatten_nil] at ih
      simp [← ih]
    | cons h2 rest2 =>
      rw [hc] at ih
      dsimp only
      by_cases hty : h.type = HunkType.change ∧ h2.type = HunkType.change
      · rw [if_pos hty]
        simp only [List.map_cons, List.flatten_cons] at ih ⊢
        rw [hg h h2 hty.1 hty.2, ← ih, List.append_assoc]
      · rw [if_neg hty]
        simp only [List.map_cons, List.flatten_cons] at ih ⊢
        rw [← ih]

theorem assignPositions_flatten_map (g : DiffHunk → List String)
    (hg : ∀ (h : DiffHunk) (nid a b : Nat),
      g { h with id := nid, localStart := some a, incomingStart := some b } = g h) :
    ∀ (hs : List DiffHunk) (nid a b : Nat),
      ((assignPositions hs nid a b).map g).flatten = (hs.map g).flatten := by
  intro hs
  induction hs with
  | nil => intro nid a b; rfl
  | cons h rest ih =>
    intro nid a b
    rw [assignPositions]
    simp only [List.map_cons, List.flatten_cons]
    rw [hg, ih]

theorem buildDiffHunks_localConcat (remoteText localText : String) :
    ((buildDiffHunks remoteText localText).map DiffHunk.localLines).flatten =
      splitRawLines localText := by
  unfold buildDiffHunks
  rw [assignPositions_flatten_map DiffHunk.localLines (by intro h nid a b; rfl)]
  rw [mergeChangeHunks_flatten_map DiffHunk.localLines
    (by intro h h2 _ _; rfl)]
  rw [List.map_map]
  have hcomp : (DiffHunk.localLines ∘ opHunk) =
      fun op => if op.type = DiffType.delete then [] else op.items := by
    funext op
    cases hop : op.type <;> simp [opHunk, hop, Function.comp]
  rw [hcomp]
  exact (diffTokens_concats (splitRawLines remoteText) (splitRawLines localText)).1

theorem buildDiffHunks_incomingConcat (remoteText localText : String) :
    ((buildDiffHunks remoteText localText).map hunkIncomingView).flatten =
      splitRawLines remoteText := by
  unfold buildDiffHunks
  rw [assignPositions_flatten_map hunkIncomingView
    (by intro h nid a b; simp [hunkIncomingView])]
  rw [mergeChangeHunks_flatten_map hunkIncomingView
    (by intro h h2 hh hh2; simp [hunkIncomingView, hh, hh2])]
  rw [List.map_map]
  have hcomp : (hunkIncomingView ∘ opHunk) =
      fun op => if op.type = DiffType.insert then [] else op.items := by
    funext op
    cases hop : op.type <;> simp [opHunk, hop, hunkIncomingView, Function.comp]
  rw [hcomp]
  exact (diffTokens_concats (splitRawLines remoteText) (splitRawLines localText)).2

theorem composeLines_cons (h : DiffHunk) (rest : List DiffHunk)
    (cm : Nat → Option DiffChoice) :
    composeLines (h :: rest) cm =
      (if h.type = .equal then h.localLines
       else resolveLinesForChoice h ((cm h.id).getD .localSide)) ++
        composeLines rest cm := rfl

theorem composeLines_allLocal (hs : List DiffHunk) :
    composeLines hs (fun _ => some DiffChoice.localSide) =
      (hs.map DiffHunk.localLines).flatten := by
  induction hs with
  | nil => rfl
  | cons h rest ih =>
    rw [composeLines_cons, ih]
    by_cases ht : h.type = HunkType.equal <;>
      simp [ht, resolveLinesForChoice]

theorem composeLines_allIncoming (hs : List DiffHunk) :
    composeLines hs (fun _ => some DiffChoice.incoming) =
      (hs.map hunkIncomingView).flatten := by
  induction hs with
  | nil => rfl
  | cons h rest ih =>
    rw [composeLines_cons, ih]
    by_cases ht : h.type = HunkType.equal <;>
      simp [ht, resolveLinesForChoice, hunkIncomingView]

/-- C7 (spec-modelled: the implementation of
`buildDiffHunks`/`composeResolvedFromHunks` is not in this snapshot): the
hunk round-trip — resolving every change hunk to `local` recomposes the
local text, resolving every change hunk to `incoming` recomposes the remote
text, and an equal hunk is reproduced verbatim under every choice map. -/
theorem hunk_round_trip :
    (∀ remoteText localText : String,
      composeResolvedFromHunks (buildDiffHunks remoteText localText)
        (fun _ => some DiffChoice.localSide) = localText) ∧
    (∀ remoteText localText : String,
      composeResolvedFromHunks (buildDiffHunks remoteText localText)
        (fun _ => some DiffChoice.incoming) = remoteText) ∧
    (∀ (cm : Nat → Option DiffChoice) (h : DiffHunk) (rest : List DiffHunk),
      h.type = HunkType.equal →
      composeLines (h :: rest) cm = h.localLines ++ composeLines rest cm) := by
  refine ⟨?_, ?_, ?_⟩
  · intro rT lT
    unfold composeResolvedFromHunks
    rw [composeLines_allLocal, buildDiffHunks_localConcat,
      joinRawLines_splitRawLines]
  · intro rT lT
    unfold composeResolvedFromHunks
    rw [composeLines_allIncoming, buildDiffHunks_incomingConcat,
      joinRawLines_splitRawLines]
  · intro cm h rest hEq
    rw [composeLines_cons, if_pos hEq]

/-- Witness for C7: an equal hunk contributes its lines verbatim. -/
theorem hunk_round_trip_witness :
    composeLines [wHunk] (fun _ => none) =
      wHunk.localLines ++ composeLines [] (fun _ => none) :=
  hunk_round_trip.2.2 (fun _ => none) wHunk [] rfl

/-! ## Catalog reconciler lemmas (C6) -/

theorem insertByCmp_perm {α : Type} (cmp : α → α → Int) (x : α) (l : List α) :
    (insertByCmp cmp x l).Perm (x :: l) := by
  induction l with
  | nil => exact List.Perm.refl _
  | cons y ys ih =>
    rw [insertByCmp]
    by_cases h : cmp y x ≤ 0
    · rw [if_pos h]
      exact ((ih.cons y).trans (List.Perm.swap x y ys)).symm.symm
    · rw [if_neg h]

theorem sortByCmp_perm {α : Type} (cmp : α → α → Int) (l : List α) :
    (sortByCmp cmp l).Perm l := by
  have key : ∀ (l acc : List α),
      (List.foldl (fun acc x => insertByCmp cmp x acc) acc l).Perm (acc ++ l) := by
    intro l
    induction l with
    | nil => intro acc; simp
    | cons x rest ih =>
      intro acc
      rw [List.foldl_cons]
      refine (ih (insertByCmp cmp x acc)).trans ?_
      refine (List.Perm.append_right rest (insertByCmp_perm cmp x acc)).trans ?_
      exact List.perm_middle.symm
  simpa using key l []

theorem ensureUniqueNames_map_id (files : List ManuscriptFileMeta)
    (po : List String) :
    ((ensureUniqueNames files po).map ManuscriptFileMeta.id).Perm
      (files.map ManuscriptFileMeta.id) := by
  unfold ensureUniqueNames
  rw [List.map_map]
  have hcomp : (ManuscriptFileMeta.id ∘ fun f =>
      { f with name := sanitizedOrDefault f.name }) = ManuscriptFileMeta.id :=
    funext fun f => rfl
  rw [hcomp]
  exact (sortByCmp_perm _ files).map ManuscriptFileMeta.id

theorem dedupeFilesAux_map_id (now : Int) :
    ∀ (files : List LooseFileMeta) (acc : List ManuscriptFileMeta),
      (∀ f ∈ files, (trimChars f.id.toList).length ≠ 0) →
      (acc.map ManuscriptFileMeta.id ++ files.map LooseFileMeta.id).Nodup →
      (dedupeFilesAux now files acc).map ManuscriptFileMeta.id =
        acc.map ManuscriptFileMeta.id ++ files.map LooseFileMeta.id := by
  intro files
  induction files with
  | nil => intro acc _ _; simp [dedupeFilesAux]
  | cons f rest ih =>
    intro acc hids hnd
    rw [dedupeFilesAux]
    rw [if_neg (hids f (List.mem_cons_self f rest))]
    have hfid : f.id ∉ acc.map ManuscriptFileMeta.id := by
      intro hmem
      have : ¬ (acc.map ManuscriptFileMeta.id).Disjoint
          (f.id :: rest.map LooseFileMeta.id) := by
        intro hdis
        exact hdis hmem (List.mem_cons_self _ _)
      exact this (List.disjoint_of_nodup_append hnd)
    have hfind : acc.find? (fun x => x.id == (normalizeFileMeta f now).id) = none := by
      rw [List.find?_eq_none]
      intro x hx
      simp only [beq_iff_eq]
      intro hxe
      apply hfid
      have hxf : x.id = f.id := hxe
      exact hxf ▸ List.mem_map_of_mem ManuscriptFileMeta.id hx
    rw [hfind]
    have hrec := ih (acc ++ [normalizeFileMeta f now])
      (fun g hg => hids g (List.mem_cons_of_mem f hg)) ?_
    · rw [hrec]
      simp [normalizeFileMeta]
    · simpa [normalizeFileMeta] using hnd

theorem normalizeFiles_map_id (files : List LooseFileMeta) (now : Int)
    (hids : ∀ f ∈ files, (trimChars f.id.toList).length ≠ 0)
    (hnd : (files.map LooseFileMeta.id).Nodup) :
    ((normalizeFiles files now).map ManuscriptFileMeta.id).Perm
      (files.map LooseFileMeta.id) := by
  unfold normalizeFiles
  refine (ensureUniqueNames_map_id _ _).trans ?_
  refine ((sortByCmp_perm _ _).map ManuscriptFileMeta.id).trans ?_
  rw [dedupeFilesAux_map_id now files [] hids (by simpa using hnd)]
  simp

theorem mergeLoop_map_id :
    ∀ (remote acc : List ManuscriptFileMeta),
      (∀ s, s ∈ remote.map ManuscriptFileMeta.id →
        s ∉ acc.map ManuscriptFileMeta.id) →
      (remote.map ManuscriptFileMeta.id).Nodup →
      (mergeLoop acc remote).map ManuscriptFileMeta.id =
        acc.map ManuscriptFileMeta.id ++ remote.map ManuscriptFileMeta.id := by
  intro remote
  induction remote with
  | nil => intro acc _ _; simp [mergeLoop]
  | cons r rest ih =>
    intro acc hdis hnd
    rw [mergeLoop]
    have hfind : acc.find? (fun x => x.id == r.id) = none := by
      rw [List.find?_eq_none]
      intro x hx
      simp only [beq_iff_eq]
      intro hxe
      exact hdis r.id (List.mem_map_of_mem _ (List.mem_cons_self r rest))
        (hxe ▸ List.mem_map_of_mem ManuscriptFileMeta.id hx)
    rw [hfind]
    have hnd' : (rest.map ManuscriptFileMeta.id).Nodup := by
      rw [List.map_cons] at hnd
      exact hnd.of_cons
    have hrec := ih (acc ++ [r]) ?_ hnd'
    · rw [hrec]
      simp
    · intro s hs
      simp only [List.map_append, List.mem_append, List.map_cons, List.mem_cons]
      rintro (hsa | hsr)
      · exact hdis s (List.mem_map.mpr (by
          obtain ⟨g, hg, rfl⟩ := List.mem_map.mp hs
          exact ⟨g, List.mem_cons_of_mem r hg, rfl⟩)) hsa
      · have hsrid : s = r.id := by simpa using hsr
        subst hsrid
        rw [List.map_cons] at hnd
        obtain ⟨g, hg, hge⟩ := List.mem_map.mp hs
        exact (List.nodup_cons.mp hnd).1 (hge ▸ List.mem_map_of_mem _ hg)

/-- C6: `mergeFileCatalogs` on well-formed catalogs with disjoint id sets is
an exact union — `|A| + |B|` entries, each id exactly once; and for an id
present in both catalogs the merged entry keeps the local record except that
the name follows the remote record when `remoteFile.renamedAt >=
localFile.renamedAt`, `createdAt` is the minimum and `updatedAt`/`renamedAt`
the maxima of the two records. -/
theorem mergeFileCatalogs_spec :
    (∀ (now : Int) (A B : List LooseFileMeta),
      (∀ f ∈ A, (trimChars f.id.toList).length ≠ 0) →
      (∀ f ∈ B, (trimChars f.id.toList).length ≠ 0) →
      (A.map LooseFileMeta.id).Nodup →
      (B.map LooseFileMeta.id).Nodup →
      (∀ s, s ∈ A.map LooseFileMeta.id → s ∉ B.map LooseFileMeta.id) →
      (mergeFileCatalogs now A B).length = A.length + B.length ∧
      ((mergeFileCatalogs now A B).map ManuscriptFileMeta.id).Nodup ∧
      (∀ s, s ∈ (mergeFileCatalogs now A B).map ManuscriptFileMeta.id ↔
        (s ∈ A.map LooseFileMeta.id ∨ s ∈ B.map LooseFileMeta.id))) ∧
    (∀ (now : Int) (a b : ManuscriptFileMeta),
      WellFormedMeta a → WellFormedMeta b → b.id = a.id →
      mergeFileCatalogs now [toLooseMeta a] [toLooseMeta b] =
        [{ id := a.id,
           name := if b.renamedAt ≥ a.renamedAt then b.name else a.name,
           createdAt := min a.createdAt b.createdAt,
           updatedAt := max a.updatedAt b.updatedAt,
           renamedAt := max a.renamedAt b.renamedAt }]) := by
  constructor
  · intro now A B hA hB hnA hnB hdisj
    have hLn := normalizeFiles_map_id A now hA hnA
    have hRn := normalizeFiles_map_id B now hB hnB
    have hRnodup : ((normalizeFiles B now).map ManuscriptFileMeta.id).Nodup :=
      (hRn.nodup_iff).mpr hnB
    have hdis2 : ∀ s, s ∈ (normalizeFiles B now).map ManuscriptFileMeta.id →
        s ∉ (normalizeFiles A now).map ManuscriptFileMeta.id := by
      intro s hsB hsA
      exact hdisj s (hLn.mem_iff.mp hsA) (hRn.mem_iff.mp hsB)
    have hunion := mergeLoop_map_id (normalizeFiles B now)
      (normalizeFiles A now) hdis2 hRnodup
    have hperm : ((mergeFileCatalogs now A B).map ManuscriptFileMeta.id).Perm
        (A.map LooseFileMeta.id ++ B.map LooseFileMeta.id) := by
      unfold mergeFileCatalogs
      refine (ensureUniqueNames_map_id _ _).trans ?_
      refine ((sortByCmp_perm _ _).map ManuscriptFileMeta.id).trans ?_
      rw [hunion]
      exact hLn.append hRn
    refine ⟨?_, ?_, ?_⟩
    · have := hperm.length_eq
      simpa using this
    · exact hperm.nodup_iff.mpr
        (List.Nodup.append hnA hnB (fun s hsA hsB => hdisj s hsA hsB))
    · intro s
      rw [hperm.mem_iff, List.mem_append]
  · intro now a b ha hb hid
    obtain ⟨hida, hsana, hnamea, hca, hcra, hrua⟩ := ha
    obtain ⟨hidb, hsanb, hnameb, hcb, hcrb, hrub⟩ := hb
    have hnorm : ∀ (m : ManuscriptFileMeta),
        (trimChars m.id.toList).length ≠ 0 →
        sanitizeFileName m.name = m.name → m.name ≠ "" →
        0 < m.createdAt → m.createdAt ≤ m.renamedAt → m.renamedAt ≤ m.updatedAt →
        normalizeFileMeta (toLooseMeta m) now = m := by
      intro m _ hsan hname hc hcr hru
      unfold normalizeFileMeta toLooseMeta
      simp only
      rw [if_pos hc, if_pos (lt_of_lt_of_le hc (le_trans hcr hru)),
        if_pos (lt_of_lt_of_le hc hcr)]
      rw [max_eq_left hru, max_eq_left hcr]
      rw [sanitizedOrDefault, hsan, if_neg hname]
    have hnfa : normalizeFiles [toLooseMeta a] now = [a] := by
      unfold normalizeFiles
      rw [show dedupeFilesAux now [toLooseMeta a] [] = [normalizeFileMeta (toLooseMeta a) now] from by
        rw [dedupeFilesAux]
        rw [if_neg (by simpa [toLooseMeta] using hida)]
        rfl]
      rw [hnorm a hida hsana hnamea hca hcra hrua]
      rw [show sortFiles [a] = [a] from rfl]
      unfold ensureUniqueNames
      rw [show sortByCmp (cmpPreferred (lastIndexOf [])) [a] = [a] from rfl]
      rw [List.map_singleton]
      rw [sanitizedOrDefault, hsana, if_neg hnamea]
    have hnfb : normalizeFiles [toLooseMeta b] now = [b] := by
      unfold normalizeFiles
      rw [show dedupeFilesAux now [toLooseMeta b] [] = [normalizeFileMeta (toLooseMeta b) now] from by
        rw [dedupeFilesAux]
        rw [if_neg (by simpa [toLooseMeta] using hidb)]
        rfl]
      rw [hnorm b hidb hsanb hnameb hcb hcrb hrub]
      rw [show sortFiles [b] = [b] from rfl]
      unfold ensureUniqueNames
      rw [show sortByCmp (cmpPreferred (lastIndexOf [])) [b] = [b] from rfl]
      rw [List.map_singleton]
      rw [sanitizedOrDefault, hsanb, if_neg hnameb]
    unfold mergeFileCatalogs
    simp only [hnfa, hnfb]
    rw [show mergeLoop [a] [b] = [combineMeta a b] from by
      rw [mergeLoop]
      rw [show List.find? (fun x => x.id == b.id) [a] = some a from by
        simp [List.find?, hid]]
      dsimp only
      rw [show upsertById [a] (combineMeta a b) = [combineMeta a b] from by
        simp [upsertById, combineMeta]]
      rfl]
    rw [show sortFiles [combineMeta a b] = [combineMeta a b] from rfl]
    unfold ensureUniqueNames
    rw [show sortByCmp (cmpPreferred (lastIndexOf
      ([a].map ManuscriptFileMeta.id ++ [b].map ManuscriptFileMeta.id)))
      [combineMeta a b] = [combineMeta a b] from rfl]
    rw [List.map_singleton]
    have hcname : sanitizedOrDefault (combineMeta a b).name = (combineMeta a b).name := by
      unfold combineMeta
      by_cases hr : b.renamedAt ≥ a.renamedAt
      · simp only [if_pos hr]
        rw [sanitizedOrDefault, hsanb, if_neg hnameb]
      · simp only [if_neg hr]
        rw [sanitizedOrDefault, hsana, if_neg hnamea]
    rw [hcname]
    rfl

/-- Witness for C6: disjoint singletons merge to two entries; a shared id
merges by the name/min/max rule. -/
theorem mergeFileCatalogs_spec_witness :
    (mergeFileCatalogs 100 [wLooseA] [wLooseB]).length = 1 + 1 ∧
    mergeFileCatalogs 100 [toLooseMeta wMetaA] [toLooseMeta wMetaB] =
      [{ id := wMetaA.id,
         name := if wMetaB.renamedAt ≥ wMetaA.renamedAt then wMetaB.name
                 else wMetaA.name,
         createdAt := min wMetaA.createdAt wMetaB.createdAt,
         updatedAt := max wMetaA.updatedAt wMetaB.updatedAt,
         renamedAt := max wMetaA.renamedAt wMetaB.renamedAt }] := by
  constructor
  · exact (mergeFileCatalogs_spec.1 100 [wLooseA] [wLooseB]
      (by decide) (by decide) (by decide) (by decide) (by decide)).1
  · exact mergeFileCatalogs_spec.2 100 wMetaA wMetaB (by decide) (by decide) rfl

end Miniauthor
